import Mathlib

/-!
Verification of the maliput_geopackage parsing core.

This file gives a shallow embedding, in Lean 4, of the parsing and
topology-reconstruction core of the repository:

* `src/maliput_geopackage/geopackage/wkt_parser.cc` — the WKT-like
  geometry text decoder (`ParseLineStringZ`, `ParsePointZ` and their
  helpers `Trim`, `ExtractParenthesesContent`, `ParseSinglePoint`);
* `src/maliput_geopackage/geopackage/geopackage_parser.cc` — the
  GeoPackage schema reader and topology builder
  (`GeoPackageParser::ParseJunctions`, `ParseSegmentsAndLanes`,
  `BuildBranchPointConnections`, `BuildLaneAdjacency`, and the
  constructor / destructor resource flow).

Modelling conventions:

* C++ `std::string` values are modelled as `List Char` (or `String`
  converted through `String.toList` at the boundary).
* C++ `double` is modelled as `ℚ`: every claim checked here is about the
  structural behaviour of the decoders (which tokens reach the numeric
  conversion, in which order), not about binary floating point rounding,
  so an exact numeric carrier is the faithful choice.
* C++ `std::unordered_map` is modelled as an association list in first
  insertion order, with `operator[]` assignment as `mapSet` (insert or
  overwrite), `emplace` as `mapEmplace` (insert only if absent) and
  `map[k].push_back v` as `mapPush`.
* `throw std::runtime_error` is modelled with `Except String`.
* The one unbounded C++ loop (the lane-chain walk of
  `BuildLaneAdjacency`) is modelled with an explicit fuel parameter;
  exhausting the fuel (`none`) means the C++ loop has not terminated
  within that many iterations.
-/

deriving instance DecidableEq for Except

namespace MaliputGpkg

/-! ## Definitions (embedded from the source) -/

/-- Model of `maliput::math::Vector3` restricted to what the parser
produces: three exact coordinates. -/
structure Vector3 where
  x : ℚ
  y : ℚ
  z : ℚ
deriving DecidableEq, Repr

/-! ## Character utilities (wkt_parser.cc anonymous namespace) -/
/-- The character set used by `Trim` in wkt_parser.cc:
`find_first_not_of(" \t\n\r")`. -/
def trimWs (c : Char) : Bool :=
  c = ' ' || c = '\t' || c = '\n' || c = '\r'

/-- Whitespace skipped by `std::istream` formatted extraction (`iss >> x`)
in the C locale: `isspace` accepts space, \t, \n, \v, \f, \r. -/
def streamWs (c : Char) : Bool :=
  c = ' ' || c = '\t' || c = '\n' || c = '\x0b' || c = '\x0c' || c = '\r'

/-- `Trim` from wkt_parser.cc: drops the characters of `trimWs` from both
ends of the string (`find_first_not_of` / `find_last_not_of` + `substr`). -/
def Trim (s : List Char) : List Char :=
  (((s.dropWhile trimWs).reverse.dropWhile trimWs)).reverse

/-- `std::toupper` over the C locale on each character, as done by
`std::transform(..., ::toupper)` in `ParseLineStringZ`. -/
def upperStr (s : List Char) : List Char := s.map Char.toUpper

/-- `haystack.find(needle) != npos`: substring containment, the keyword
check of `ParseLineStringZ` / `ParsePointZ`. -/
def containsSub (pat : List Char) : List Char → Bool
  | [] => pat.isEmpty
  | c :: rest => pat.isPrefixOf (c :: rest) || containsSub pat rest

/-! ## Numeric extraction (`iss >> double`)

`ParseSinglePoint` reads three doubles with `istringstream` formatted
extraction.  We model one extraction as: skip stream whitespace, then
consume the longest prefix of the form
`[+|-] digits [. digits] [ (e|E) [+|-] digits ]` holding at least one
mantissa digit, failing (`none`) when no such prefix exists. -/
/-- Numeric value of a digit string (most significant first). -/
def digitsToNat (ds : List Char) : Nat :=
  ds.foldl (fun a c => a * 10 + (c.toNat - 48)) 0

/-- The exact rational value `±(ip + fp/10^fl) * 10^ex` of a decimal
literal with integer-part value `ip`, fraction digits of value `fp` and
length `fl`, and exponent `ex`, assembled as one integer quotient so
that it evaluates by kernel reduction. -/
def decValue (neg : Bool) (ip fp fl : Nat) (ex : Int) : ℚ :=
  Rat.divInt ((if neg then -1 else 1) * ((ip * 10 ^ fl + fp : Nat) : Int) * 10 ^ ex.toNat)
    ((10 : Int) ^ fl * 10 ^ (-ex).toNat)

/-- Optional leading sign of a numeric literal: consumed sign and the
remaining characters. -/
def parseSign (cs : List Char) : Bool × List Char :=
  match cs with
  | c :: r => if c = '-' then (true, r) else if c = '+' then (false, r) else (false, cs)
  | [] => (false, cs)

/-- Fraction part: consumes `.` followed by any digits; otherwise
consumes nothing. -/
def parseFrac (cs : List Char) : List Char × List Char :=
  match cs with
  | c :: r =>
    if c = '.' then (r.takeWhile Char.isDigit, r.dropWhile Char.isDigit) else ([], cs)
  | [] => ([], cs)

/-- Exponent part of a double literal.  Consumes `e`/`E`, an optional
sign and at least one digit; if no digit follows, nothing is consumed
(strtod-style backup). -/
def parseExpPart (cs : List Char) : Int × List Char :=
  match cs with
  | [] => (0, [])
  | c :: rest =>
    if c = 'e' || c = 'E' then
      let sr := parseSign rest
      let ds := sr.2.takeWhile Char.isDigit
      if ds.isEmpty then (0, cs)
      else
        ((if sr.1 then -(digitsToNat ds : Int) else (digitsToNat ds : Int)),
          sr.2.dropWhile Char.isDigit)
    else (0, cs)

/-- One `iss >> x` extraction on a stream whose whitespace has already
been skipped: longest numeric prefix and the remaining characters. -/
def parseNum (cs : List Char) : Option (ℚ × List Char) :=
  let s := parseSign cs
  let ip := s.2.takeWhile Char.isDigit
  let cs2 := s.2.dropWhile Char.isDigit
  let fr := parseFrac cs2
  if ip.isEmpty && fr.1.isEmpty then none
  else
    let e := parseExpPart fr.2
    some (decValue s.1 (digitsToNat ip) (digitsToNat fr.1) fr.1.length e.1, e.2)

/-- `iss >> x`: skip stream whitespace, then extract one double. -/
def readNum (cs : List Char) : Option (ℚ × List Char) :=
  parseNum (cs.dropWhile streamWs)

/-- `ParseSinglePoint` from wkt_parser.cc: trims the field, then reads
exactly three doubles with `iss >> x >> y >> z`; any failed extraction
throws. Characters left over after the third number are ignored, exactly
as the stream leaves them unread. -/
def ParseSinglePoint (point_str : List Char) : Except String Vector3 :=
  match readNum (Trim point_str) with
  | none => .error "Malformed WKT point"
  | some (x, r1) =>
    match readNum r1 with
    | none => .error "Malformed WKT point"
    | some (y, r2) =>
      match readNum r2 with
      | none => .error "Malformed WKT point"
      | some (z, _) => .ok ⟨x, y, z⟩

/-! ## Parenthesis extraction -/
/-- `wkt.find('(')` as an index: position of the first occurrence. -/
def findIdxOf (c : Char) : List Char → Option Nat
  | [] => none
  | d :: rest => if d = c then some 0 else (findIdxOf c rest).map (· + 1)

/-- `wkt.rfind(')')` as an index: position of the last occurrence. -/
def rfindIdxOf (c : Char) (s : List Char) : Option Nat :=
  match findIdxOf c s.reverse with
  | none => none
  | some i => some (s.length - 1 - i)

/-- `ExtractParenthesesContent` from wkt_parser.cc: locate the first `(`
and the last `)`; fail when either is missing or the open parenthesis is
at or after the close; otherwise return the substring strictly between
them (`substr(open+1, close-open-1)`). -/
def ExtractParenthesesContent (wkt : List Char) : Option (List Char) :=
  match findIdxOf '(' wkt, rfindIdxOf ')' wkt with
  | some o, some c => if c ≤ o then none else some ((wkt.drop (o + 1)).take (c - o - 1))
  | _, _ => none

/-! ## Comma splitting (`while (std::getline(iss, point_str, ','))`)

`std::getline` with a delimiter fails only when the stream is already
exhausted; otherwise it yields the characters up to the next delimiter
(or end of input) and consumes the delimiter.  Hence an input ending in a
delimiter produces no trailing empty field, and an empty input produces
no field at all. -/
def splitCommaAux : List Char → List Char → List (List Char)
  | [], acc => [acc.reverse]
  | c :: rest, acc =>
    if c = ',' then
      acc.reverse :: (if rest.isEmpty then [] else splitCommaAux rest [])
    else
      splitCommaAux rest (c :: acc)

/-- Fields produced by the `getline` loop of `ParseLineStringZ`. -/
def splitComma (cs : List Char) : List (List Char) :=
  match cs with
  | [] => []
  | _ => splitCommaAux cs []

/-! ## The line-string decoder -/
def linestringKeyword : List Char := ['L', 'I', 'N', 'E', 'S', 'T', 'R', 'I', 'N', 'G']

/-- The `while (std::getline(...)) points.push_back(ParseSinglePoint(...))`
loop: parse each field in order, propagating the first thrown error. -/
def parsePointsLoop : List (List Char) → Except String (List Vector3)
  | [] => .ok []
  | f :: rest =>
    match ParseSinglePoint f with
    | .error e => .error e
    | .ok v =>
      match parsePointsLoop rest with
      | .error e => .error e
      | .ok vs => .ok (v :: vs)

/-- `ParseLineStringZ` from wkt_parser.cc: keyword check on the
uppercased input (substring based), parenthesis extraction on the
original input, comma split, one point per field, and a final arity
check of at least two points. -/
def ParseLineStringZ (wkt : List Char) : Except String (List Vector3) :=
  if containsSub linestringKeyword (upperStr wkt) = false then
    .error "WKT string is not a LINESTRING"
  else
    match ExtractParenthesesContent wkt with
    | none => .error "Malformed WKT: missing or mismatched parentheses"
    | some content =>
      match parsePointsLoop (splitComma content) with
      | .error e => .error e
      | .ok points =>
        if points.length < 2 then
          .error "LINESTRING must have at least 2 points"
        else
          .ok points

/-! ## Token-level vocabulary for the round-trip theorems

A `NumLit` is a fixed-notation decimal literal: optional minus sign,
integer digits, optional fraction digits.  These are the numeric tokens
the round-trip claims quantify over; `renderNum` prints one and
`NumLit.val` is its exact value. -/
structure NumLit where
  neg : Bool
  ipart : List Char
  fpart : Option (List Char)
deriving DecidableEq, Repr

def renderNum (l : NumLit) : List Char :=
  (if l.neg then ['-'] else []) ++ l.ipart ++
    (match l.fpart with | none => [] | some f => '.' :: f)

/-- Well-formedness of a literal: digits in the digit fields, and at
least one mantissa digit overall. -/
def NumLit.wf (l : NumLit) : Prop :=
  (∀ c ∈ l.ipart, c.isDigit = true) ∧ (∀ c ∈ l.fpart.getD [], c.isDigit = true) ∧
    (l.ipart ≠ [] ∨ l.fpart.getD [] ≠ [])

instance (l : NumLit) : Decidable l.wf := by
  unfold NumLit.wf; infer_instance

/-- Exact value of a well-formed literal. -/
def NumLit.val (l : NumLit) : ℚ :=
  decValue l.neg (digitsToNat l.ipart) (digitsToNat (l.fpart.getD []))
    (l.fpart.getD []).length 0

/-- A continuation in front of which a numeric literal stops: empty, or
starting with a character that extends neither the digit run, the
fraction, nor the exponent. -/
def restSafe : List Char → Prop
  | [] => True
  | c :: _ => c.isDigit = false ∧ c ≠ '.' ∧ c ≠ 'e' ∧ c ≠ 'E'

/-- The head of a list, if any, fails the predicate `p`. -/
def headFails (p : Char → Bool) : List Char → Prop
  | [] => True
  | c :: _ => p c = false

/-! ### Fields: space-separated token lists -/
/-- Join character lists with a single separator character between
consecutive elements. -/
def joinSep (sep : Char) : List (List Char) → List Char
  | [] => []
  | [f] => f
  | f :: g :: rest => f ++ sep :: joinSep sep (g :: rest)

/-- The text of one point field: the renderings of its numeric tokens
separated by single spaces. -/
def fieldOfToks (ts : List NumLit) : List Char := joinSep ' ' (ts.map renderNum)

/-! ### Assembling whole LINESTRING inputs -/
/-- The characters before the opening parenthesis in the canonical
well-formed input shape `LINESTRING Z(...)`. -/
def lsHeader : List Char := ['L', 'I', 'N', 'E', 'S', 'T', 'R', 'I', 'N', 'G', ' ', 'Z']

/-- One coordinate triple as a field text `x y z`. -/
def fieldOfTriple (t : NumLit × NumLit × NumLit) : List Char :=
  fieldOfToks [t.1, t.2.1, t.2.2]

/-- The comma-separated coordinate payload of a list of triples. -/
def payloadOfPts (pts : List (NumLit × NumLit × NumLit)) : List Char :=
  joinSep ',' (pts.map fieldOfTriple)

/-- A well-formed `LINESTRING Z(p1,...,pn)` input built from numeric
token triples. -/
def mkLineStringZ (pts : List (NumLit × NumLit × NumLit)) : List Char :=
  lsHeader ++ '(' :: (payloadOfPts pts ++ [')'])

/-- Well-formedness of one triple of tokens. -/
def TripleWf (t : NumLit × NumLit × NumLit) : Prop :=
  t.1.wf ∧ t.2.1.wf ∧ t.2.2.wf

instance (t : NumLit × NumLit × NumLit) : Decidable (TripleWf t) := by
  unfold TripleWf; infer_instance

/-- The exact point value denoted by one triple of tokens. -/
def tripleVal (t : NumLit × NumLit × NumLit) : Vector3 :=
  ⟨t.1.val, t.2.1.val, t.2.2.val⟩

/-- Number of maximal whitespace-separated token runs in a field (used
to state claims about token arity). -/
def countStreamToksAux : List Char → Bool → Nat
  | [], _ => 0
  | c :: rest, inTok =>
    if streamWs c then countStreamToksAux rest false
    else (if inTok then 0 else 1) + countStreamToksAux rest true

def countStreamToks (cs : List Char) : Nat := countStreamToksAux cs false

/-! ## geopackage_parser.cc: data model

`maliput_sparse::parser` entity types, restricted to the fields the
parser populates.  `std::unordered_map` is modelled as an association
list in first-insertion order (iteration order of the C++ container is
unspecified; no claim proved here depends on it beyond per-key
contents). -/

inductive Which where
  | kStart
  | kFinish
deriving DecidableEq, Repr

structure LaneEnd where
  lane_id : String
  which : Which
deriving DecidableEq, Repr

/-- `maliput_sparse::parser::Connection`: `from_`/`to_` model the C++
fields `from`/`to`. -/
structure Connection where
  from_ : LaneEnd
  to_ : LaneEnd
deriving DecidableEq, Repr

structure Lane where
  id : String
  left : List Vector3
  right : List Vector3
  left_lane_id : Option String
  right_lane_id : Option String
deriving DecidableEq, Repr

structure Segment where
  id : String
  lanes : List Lane
deriving DecidableEq, Repr

structure Junction where
  id : String
  segments : List (String × Segment)
deriving DecidableEq, Repr

/-! ### Association-list operations mirroring `std::unordered_map` -/

/-- `map.find(k)` returning the mapped value. -/
def mapFind {α : Type} (m : List (String × α)) (k : String) : Option α :=
  match m.find? (fun p => p.1 == k) with
  | some p => some p.2
  | none => none

/-- `map[k] = v`: overwrite the slot holding `k`, or insert a new one
(the container keys are unique, so the first hit is the only hit). -/
def mapSet {α : Type} : List (String × α) → String → α → List (String × α)
  | [], k, v => [(k, v)]
  | p :: rest, k, v => if p.1 = k then (k, v) :: rest else p :: mapSet rest k v

/-- `map.emplace(k, v)`: insert only if the key is absent. -/
def mapEmplace {α : Type} (m : List (String × α)) (k : String) (v : α) : List (String × α) :=
  if (mapFind m k).isSome then m else m ++ [(k, v)]

/-- Apply a function to the value stored at `k` (no-op when absent). -/
def mapUpdate {α : Type} : List (String × α) → String → (α → α) → List (String × α)
  | [], _, _ => []
  | p :: rest, k, f => if p.1 = k then (p.1, f p.2) :: rest else p :: mapUpdate rest k f

/-- `map[k].push_back(v)`: `operator[]` default-constructs an empty
vector when the key is absent. -/
def mapPush {α : Type} (m : List (String × List α)) (k : String) (v : α) :
    List (String × List α) :=
  match mapFind m k with
  | some _ => mapUpdate m k (fun l => l ++ [v])
  | none => m ++ [(k, [v])]

/-! ### Table rows (each column nullable, as read from SQLite) -/

structure JunctionRow where
  junction_id : Option String
  name : Option String
deriving DecidableEq, Repr

structure SegmentRow where
  segment_id : Option String
  junction_id : Option String
  name : Option String
deriving DecidableEq, Repr

structure BoundaryRow where
  boundary_id : Option String
  geometry : Option String
deriving DecidableEq, Repr

structure LaneRow where
  lane_id : Option String
  segment_id : Option String
  lane_type : Option String
  direction : Option String
  left_boundary_id : Option String
  right_boundary_id : Option String
deriving DecidableEq, Repr

structure BpRow where
  branch_point_id : Option String
  lane_id : Option String
  side : Option String
  lane_end : Option String
deriving DecidableEq, Repr

structure AdjRow where
  lane_id : Option String
  adjacent_lane_id : Option String
  side : Option String
deriving DecidableEq, Repr

/-! ### GeoPackageParser::ParseJunctions -/

/-- One iteration of the junction row loop: a non-null id creates a
fresh `Junction` under that id (overwriting silently on duplicates). -/
def junctionsStep (m : List (String × Junction)) (r : JunctionRow) :
    List (String × Junction) :=
  match r.junction_id with
  | some jid => mapSet m jid ⟨jid, []⟩
  | none => m

def ParseJunctions (rows : List JunctionRow) : List (String × Junction) :=
  rows.foldl junctionsStep []

/-! ### GeoPackageParser::ParseSegmentsAndLanes -/

/-- The parser state that `ParseSegmentsAndLanes` threads: the junction
map under construction, the `segment_to_junction` side table, the two
lane lookup tables, and the log of emitted warnings. -/
structure ParseState where
  junctions : List (String × Junction)
  segment_to_junction : List (String × String)
  lane_to_junction : List (String × String)
  lane_to_segment : List (String × String)
  warnings : List String
deriving DecidableEq, Repr

/-- One segment row: with both ids non-null, the side table is recorded
unconditionally, and the segment is attached only when its junction
exists. -/
def processSegmentRow (st : ParseState) (r : SegmentRow) : ParseState :=
  match r.segment_id, r.junction_id with
  | some sid, some jid =>
    let st1 := { st with segment_to_junction := mapSet st.segment_to_junction sid jid }
    match mapFind st1.junctions jid with
    | some _ =>
      { st1 with junctions := (mapUpdate st1.junctions jid
          (fun j => { j with segments := mapSet j.segments sid ⟨sid, []⟩ })) }
    | none => st1
  | _, _ => st

/-- One boundary row: null id or geometry throws; the geometry is
decoded by `ParseLineStringZ`; duplicate ids keep the first entry
(`emplace`). -/
def processBoundaryRow (m : List (String × List Vector3)) (r : BoundaryRow) :
    Except String (List (String × List Vector3)) :=
  match r.boundary_id, r.geometry with
  | some bid, some wkt =>
    match ParseLineStringZ wkt.toList with
    | .error e => .error e
    | .ok pts => .ok (mapEmplace m bid pts)
  | _, _ => .error "Invalid entry in boundaries table: missing id or geometry"

def loadBoundariesLoop (m : List (String × List Vector3)) :
    List BoundaryRow → Except String (List (String × List Vector3))
  | [] => .ok m
  | r :: rest =>
    match processBoundaryRow m r with
    | .error e => .error e
    | .ok m2 => loadBoundariesLoop m2 rest

/-- The boundary table scan: all rows are read into a map, and a table
with zero rows (`has_boundaries` stays false) is a fatal error. -/
def loadBoundaries (rows : List BoundaryRow) :
    Except String (List (String × List Vector3)) :=
  match loadBoundariesLoop [] rows with
  | .error e => .error e
  | .ok m =>
    if rows.isEmpty then .error "boundaries table exists but contains no rows"
    else .ok m

/-- One lane row, in source order: null required field throws; unknown
boundary reference throws; segment id absent from the side table warns
and skips; junction or segment lookup failure skips silently; otherwise
the lane is appended to its segment and the lookup tables updated. -/
def processLaneRow (bmap : List (String × List Vector3)) (st : ParseState) (r : LaneRow) :
    Except String ParseState :=
  match r.lane_id, r.segment_id, r.left_boundary_id, r.right_boundary_id with
  | some lid, some sid, some lb, some rb =>
    match mapFind bmap lb, mapFind bmap rb with
    | some lpts, some rpts =>
      let lane : Lane := ⟨lid, lpts, rpts, none, none⟩
      match mapFind st.segment_to_junction sid with
      | none =>
        .ok { st with warnings :=
          st.warnings ++ ["Lane " ++ lid ++ " references unknown segment " ++ sid] }
      | some jid =>
        match mapFind st.junctions jid with
        | some j =>
          match mapFind j.segments sid with
          | some _ =>
            .ok { st with
              junctions := mapUpdate st.junctions jid (fun j2 =>
                { j2 with segments := mapUpdate j2.segments sid (fun s =>
                  { s with lanes := s.lanes ++ [lane] }) }),
              lane_to_junction := mapSet st.lane_to_junction lid jid,
              lane_to_segment := mapSet st.lane_to_segment lid sid }
          | none => .ok st
        | none => .ok st
    | _, _ => .error ("Lane " ++ lid ++ " references unknown boundary id")
  | _, _, _, _ => .error "Lane row missing required fields"

def lanesLoop (bmap : List (String × List Vector3)) (st : ParseState) :
    List LaneRow → Except String ParseState
  | [] => .ok st
  | r :: rest =>
    match processLaneRow bmap st r with
    | .error e => .error e
    | .ok st2 => lanesLoop bmap st2 rest

/-- `GeoPackageParser::ParseSegmentsAndLanes`: segments scan, mandatory
boundary table load, lanes scan.  A `none` table means the SQL prepare
failed (table missing), which is fatal for all three tables here. -/
def ParseSegmentsAndLanes (junctions0 : List (String × Junction))
    (segRows : Option (List SegmentRow)) (bRows : Option (List BoundaryRow))
    (laneRows : Option (List LaneRow)) : Except String ParseState :=
  match segRows with
  | none => .error "Failed to query segments table"
  | some segs =>
    let st1 := segs.foldl processSegmentRow ⟨junctions0, [], [], [], []⟩
    match bRows with
    | none => .error "GeoPackage missing required boundaries table"
    | some brs =>
      match loadBoundaries brs with
      | .error e => .error e
      | .ok bmap =>
        match laneRows with
        | none => .error "Failed to query lanes table"
        | some lrs => lanesLoop bmap st1 lrs

/-! ### GeoPackageParser::BuildBranchPointConnections -/

/-- `LaneEndWhichFromString`: `start`/`finish` map to the enum; any
other value throws. -/
def LaneEndWhichFromString (end_str : String) : Except String Which :=
  if end_str = "start" then .ok .kStart
  else if end_str = "finish" then .ok .kFinish
  else .error ("Invalid lane_end value: " ++ end_str)

structure BpMaps where
  aSide : List (String × List LaneEnd)
  bSide : List (String × List LaneEnd)
deriving DecidableEq, Repr

/-- One branch-point row: any null column skips silently; the lane_end
column is converted (throwing on an invalid value) BEFORE the side
column is examined; sides other than `a`/`b` are then dropped. -/
def processBpRow (maps : BpMaps) (r : BpRow) : Except String BpMaps :=
  match r.branch_point_id, r.lane_id, r.side, r.lane_end with
  | some bp, some lid, some side, some le_str =>
    match LaneEndWhichFromString le_str with
    | .error e => .error e
    | .ok w =>
      if side = "a" then .ok { maps with aSide := mapPush maps.aSide bp ⟨lid, w⟩ }
      else if side = "b" then .ok { maps with bSide := mapPush maps.bSide bp ⟨lid, w⟩ }
      else .ok maps
  | _, _, _, _ => .ok maps

def bpLoop (maps : BpMaps) : List BpRow → Except String BpMaps
  | [] => .ok maps
  | r :: rest =>
    match processBpRow maps r with
    | .error e => .error e
    | .ok m2 => bpLoop m2 rest

/-- The nested loops `for a in a_lanes: for b in b_lanes: push (a → b)`. -/
def crossConnections : List LaneEnd → List LaneEnd → List Connection
  | [], _ => []
  | a :: rest, bs => bs.map (fun b => ⟨a, b⟩) ++ crossConnections rest bs

/-- The emission loop over the a-side map: branch points with no b-side
entry are skipped (`continue`). -/
def emitLoop (bSide : List (String × List LaneEnd)) :
    List (String × List LaneEnd) → List Connection
  | [] => []
  | (bp, as_) :: rest =>
    (match mapFind bSide bp with
      | none => []
      | some bs => crossConnections as_ bs) ++ emitLoop bSide rest

def BuildBranchPointConnections (rows : List BpRow) : Except String (List Connection) :=
  match bpLoop ⟨[], []⟩ rows with
  | .error e => .error e
  | .ok maps => .ok (emitLoop maps.bSide maps.aSide)

/-- The connections attributable to one branch point: the cross product
of its two groups when both are present, nothing otherwise. -/
def bpContribution (maps : BpMaps) (bp : String) : List Connection :=
  match mapFind maps.aSide bp, mapFind maps.bSide bp with
  | some as_, some bs => crossConnections as_ bs
  | _, _ => []

/-- Concatenated contributions over a list of a-side entries. -/
def sumContributions (maps : BpMaps) : List (String × List LaneEnd) → List Connection
  | [] => []
  | p :: rest => bpContribution maps p.1 ++ sumContributions maps rest

/-- The keys of an association list. -/
def mapKeys {α : Type} (m : List (String × α)) : List String := m.map Prod.fst

/-! ### GeoPackageParser::BuildLaneAdjacency -/

/-- One adjacency row into the `(left_adjacent, right_adjacent)` map
pair; null columns and unknown side values skip silently. -/
def adjStep (ms : List (String × String) × List (String × String)) (r : AdjRow) :
    List (String × String) × List (String × String) :=
  match r.lane_id, r.adjacent_lane_id, r.side with
  | some lid, some aid, some side =>
    if side = "left" then (mapSet ms.1 lid aid, ms.2)
    else if side = "right" then (ms.1, mapSet ms.2 lid aid)
    else ms
  | _, _, _ => ms

def buildAdjMaps (rows : List AdjRow) :
    List (String × String) × List (String × String) :=
  rows.foldl adjStep ([], [])

/-- Patch one lane with its neighbours from the adjacency maps (a map
miss leaves the field as it was). -/
def setLaneAdj (la ra : List (String × String)) (l : Lane) : Lane :=
  { l with
    left_lane_id := match mapFind la l.id with | some v => some v | none => l.left_lane_id,
    right_lane_id := match mapFind ra l.id with | some v => some v | none => l.right_lane_id }

/-- `lane_map[lane.id] = &lane` over the segment lanes. -/
def buildLaneMap (lanes : List Lane) : List (String × Lane) :=
  lanes.foldl (fun m l => mapSet m l.id l) []

/-- The first lane without a right neighbour (the loop `break`s at the
first hit). -/
def findRightmost (lanes : List Lane) : Option Lane :=
  lanes.find? (fun l => l.right_lane_id.isNone)

/-- One iteration of the chain walk: follow the left link through the
lane map; absent link or failed lookup ends the walk. -/
def chainStep (lane_map : List (String × Lane)) (cur : Lane) : Option Lane :=
  match cur.left_lane_id with
  | some lid => mapFind lane_map lid
  | none => none

/-- The `while (current)` walk of `BuildLaneAdjacency`, with explicit
fuel: `some` is the list the loop accumulated when it exited; `none`
means the loop has not terminated within `fuel` iterations (the C++
loop has no other exit and no visited check). -/
def chainFromFuel (lane_map : List (String × Lane)) : Nat → Lane → Option (List Lane)
  | 0, _ => none
  | fuel + 1, cur =>
    match chainStep lane_map cur with
    | none => some [cur]
    | some nxt =>
      match chainFromFuel lane_map fuel nxt with
      | none => none
      | some rest => some (cur :: rest)

/-- The per-segment reorder step: for 2+ lanes, find the rightmost lane
and walk left; the new order replaces the old one only when it covers
exactly every lane ordinal. -/
def reorderLanesFuel (fuel : Nat) (lanes : List Lane) : List Lane :=
  if lanes.length ≤ 1 then lanes
  else
    let lane_map := buildLaneMap lanes
    match findRightmost lanes with
    | none => lanes
    | some start =>
      match chainFromFuel lane_map fuel start with
      | none => lanes
      | some ordered => if ordered.length = lanes.length then ordered else lanes

/-- `GeoPackageParser::BuildLaneAdjacency`: build the adjacency maps,
patch every lane, reorder every segment. -/
def BuildLaneAdjacency (fuel : Nat) (junctions : List (String × Junction))
    (rows : List AdjRow) : List (String × Junction) :=
  let ms := buildAdjMaps rows
  junctions.map (fun p =>
    (p.1, { p.2 with segments := p.2.segments.map (fun q =>
      (q.1, { q.2 with
        lanes := reorderLanesFuel fuel (q.2.lanes.map (setLaneAdj ms.1 ms.2)) })) }))

/-! ### The constructor / destructor resource flow -/

/-- The observable content of a GeoPackage file: whether it opens, and
per logical table either `none` (the SQL prepare fails: table missing)
or its rows. -/
structure GpkgFile where
  openable : Bool
  metadata : Option (List (Option String × Option String))
  junctions : Option (List JunctionRow)
  segments : Option (List SegmentRow)
  boundaries : Option (List BoundaryRow)
  lanes : Option (List LaneRow)
  branch_point_lanes : Option (List BpRow)
  adjacent_lanes : Option (List AdjRow)
deriving DecidableEq, Repr

structure Graph where
  junctions : List (String × Junction)
  connections : List Connection
deriving DecidableEq, Repr

/-- The constructor body after `OpenDatabase`: ParseMetadata (never
throws), ParseJunctions (missing table throws), ParseSegmentsAndLanes,
then ParseConnections = BuildBranchPointConnections (optional table)
followed by BuildLaneAdjacency (optional table). -/
def parseAllTables (fuel : Nat) (f : GpkgFile) : Except String Graph :=
  match f.junctions with
  | none => .error "Failed to query junctions table"
  | some jrows =>
    let js := ParseJunctions jrows
    match ParseSegmentsAndLanes js f.segments f.boundaries f.lanes with
    | .error e => .error e
    | .ok st =>
      match (match f.branch_point_lanes with
        | none => Except.ok ([] : List Connection)
        | some brows => BuildBranchPointConnections brows) with
      | .error e => .error e
      | .ok conns =>
        let js2 := match f.adjacent_lanes with
          | none => st.junctions
          | some arows => BuildLaneAdjacency fuel st.junctions arows
        .ok ⟨js2, conns⟩

structure LoadResult where
  outcome : Except String Graph
  handleReleased : Bool
deriving DecidableEq, Repr

/-- The full lifetime of a `GeoPackageParser` load, with the C++
object-lifetime rules made explicit in `handleReleased`:

* `OpenDatabase` failure: the constructor itself calls `sqlite3_close`
  before throwing — released.
* the constructor body throws after a successful open: in C++ the
  destructor of a partially constructed object does not run, `db_` is a
  raw `sqlite3*` member with no owning wrapper, and no catch block calls
  `CloseDatabase` on this path — the handle is NOT released.
* construction succeeds: `~GeoPackageParser` runs `CloseDatabase` when
  the object is destroyed — released. -/
def runLoad (fuel : Nat) (f : GpkgFile) : LoadResult :=
  if f.openable = false then
    ⟨.error "Failed to open GeoPackage file", true⟩
  else
    match parseAllTables fuel f with
    | .error e => ⟨.error e, false⟩
    | .ok g => ⟨.ok g, true⟩

/-! ### Concrete fixture: a left-link 2-cycle

The adjacency table rows `(A,B,left)` and `(B,A,left)` with no right
rows give each of the two lanes a left neighbour and no right
neighbour: the chain walk starting at the first right-less lane then
alternates A, B, A, B, ... forever. -/

def cycAdjRows : List AdjRow :=
  [⟨some "A", some "B", some "left"⟩, ⟨some "B", some "A", some "left"⟩]

def cycLaneA : Lane := ⟨"A", [], [], some "B", none⟩

def cycLaneB : Lane := ⟨"B", [], [], some "A", none⟩

def cycLaneMap : List (String × Lane) := buildLaneMap [cycLaneA, cycLaneB]

/-! ## Theorems -/

example : ParseLineStringZ "LINESTRINGZ(0 0 0, 10 5 1, 20 10 2)".toList =
    .ok [⟨0, 0, 0⟩, ⟨10, 5, 1⟩, ⟨20, 10, 2⟩] := by decide

example : ParseLineStringZ "LINESTRING Z(0 0 0, 100 0 0)".toList =
    .ok [⟨0, 0, 0⟩, ⟨100, 0, 0⟩] := by decide

example : ParseLineStringZ "LINESTRINGZ(0 0 0)".toList =
    .error "LINESTRING must have at least 2 points" := by decide

example : ParseLineStringZ "LINESTRINGZ()".toList =
    .error "LINESTRING must have at least 2 points" := by decide

example : ParseLineStringZ "NOT_A_THING(0 0 0, 1 1 1)".toList =
    .error "WKT string is not a LINESTRING" := by decide

example : ParseSinglePoint "  -1.5 2.25 3e2  ".toList =
    .ok ⟨Rat.divInt (-3) 2, Rat.divInt 9 4, 300⟩ := by decide

example : ParseSinglePoint "1 2 3 4".toList = .ok ⟨1, 2, 3⟩ := by decide

example : ParseSinglePoint "1 2".toList = .error "Malformed WKT point" := by decide

/-! ### Character-class facts -/
theorem not_digit_of_streamWs {c : Char} (h : streamWs c = true) : c.isDigit = false := by
  simp only [streamWs, Bool.or_eq_true, decide_eq_true_eq] at h
  rcases h with ((((h | h) | h) | h) | h) | h <;> subst h <;> decide

theorem streamWs_eq_false_of_isDigit {c : Char} (h : c.isDigit = true) : streamWs c = false := by
  cases hs : streamWs c with
  | false => rfl
  | true => rw [not_digit_of_streamWs hs] at h; cases h

theorem trimWs_false_of_streamWs_false {c : Char} (h : streamWs c = false) :
    trimWs c = false := by
  simp only [streamWs, Bool.or_eq_false_iff, decide_eq_false_iff_not] at h
  simp only [trimWs, Bool.or_eq_false_iff, decide_eq_false_iff_not]
  exact ⟨⟨⟨h.1.1.1.1.1, h.1.1.1.1.2⟩, h.1.1.1.2⟩, h.2⟩

theorem isDigit_ne {c d : Char} (h : c.isDigit = true) (hd : d.isDigit = false) : c ≠ d := by
  intro he; subst he; rw [h] at hd; cases hd

theorem takeWhile_digit_block (ds rest : List Char) (hd : ∀ c ∈ ds, c.isDigit = true)
    (hr : headFails Char.isDigit rest) :
    (ds ++ rest).takeWhile Char.isDigit = ds ∧ (ds ++ rest).dropWhile Char.isDigit = rest := by
  induction ds with
  | nil =>
    simp only [List.nil_append]
    cases rest with
    | nil => exact ⟨rfl, rfl⟩
    | cons c r =>
      simp only [headFails] at hr
      simp [List.takeWhile, List.dropWhile, hr]
  | cons d ds ih =>
    have hdd : d.isDigit = true := hd d (List.mem_cons_self d ds)
    have ih2 := ih (fun c hc => hd c (List.mem_cons_of_mem d hc))
    simp [List.takeWhile, List.dropWhile, hdd, ih2.1, ih2.2]

theorem parseSign_no_sign (cs : List Char)
    (h : ∀ c, cs.head? = some c → c ≠ '-' ∧ c ≠ '+') : parseSign cs = (false, cs) := by
  cases cs with
  | nil => rfl
  | cons c r =>
    have hc := h c rfl
    simp [parseSign, hc.1, hc.2]

theorem parseFrac_no_dot (cs : List Char)
    (h : ∀ c, cs.head? = some c → c ≠ '.') : parseFrac cs = ([], cs) := by
  cases cs with
  | nil => rfl
  | cons c r => simp [parseFrac, h c rfl]

theorem parseExpPart_safe (cs : List Char) (h : restSafe cs) : parseExpPart cs = (0, cs) := by
  cases cs with
  | nil => rfl
  | cons c r =>
    obtain ⟨-, -, he, hE⟩ := h
    simp [parseExpPart, he, hE]

theorem parseSign_body (ip tail : List Char) (hip : ∀ c ∈ ip, c.isDigit = true)
    (h : ip ≠ [] ∨ (∀ c, tail.head? = some c → c ≠ '-' ∧ c ≠ '+')) :
    parseSign (ip ++ tail) = (false, ip ++ tail) := by
  refine parseSign_no_sign _ ?_
  intro c hc
  cases ip with
  | nil =>
    rcases h with h | h
    · exact absurd rfl h
    · exact h c (by simpa using hc)
  | cons c0 r0 =>
    simp only [List.cons_append, List.head?, Option.some.injEq] at hc
    subst hc
    have hd := hip c0 (List.mem_cons_self c0 r0)
    exact ⟨isDigit_ne hd (by decide), isDigit_ne hd (by decide)⟩

/-- A well-formed literal parses in front of any safe continuation,
consuming exactly itself and producing its exact value. -/
theorem parseNum_render (neg : Bool) (ip : List Char) (fp : Option (List Char))
    (hl : NumLit.wf ⟨neg, ip, fp⟩) (rest : List Char) (hr : restSafe rest) :
    parseNum (renderNum ⟨neg, ip, fp⟩ ++ rest) = some ((NumLit.mk neg ip fp).val, rest) := by
  obtain ⟨hip, hfp, hne⟩ := hl
  have hrestHead : headFails Char.isDigit rest := by
    cases rest with
    | nil => trivial
    | cons c r => exact hr.1
  cases fp with
  | none =>
    have hipne : ip ≠ [] := by
      rcases hne with h | h
      · exact h
      · exact absurd rfl h
    have hblock := takeWhile_digit_block ip rest hip hrestHead
    have hfrac : parseFrac rest = ([], rest) := by
      refine parseFrac_no_dot rest ?_
      intro c hc
      cases rest with
      | nil => cases hc
      | cons c0 r0 =>
        simp only [List.head?, Option.some.injEq] at hc
        subst hc
        exact hr.2.1
    have hbody : renderNum ⟨neg, ip, none⟩ ++ rest =
        (if neg then ['-'] else []) ++ (ip ++ rest) := by
      simp [renderNum]
    have hsign : parseSign (renderNum ⟨neg, ip, none⟩ ++ rest) = (neg, ip ++ rest) := by
      rw [hbody]
      cases neg with
      | true => simp [parseSign]
      | false =>
        simp only [Bool.false_eq_true, if_false, List.nil_append]
        exact parseSign_body ip rest hip (Or.inl hipne)
    simp only [parseNum, hsign, hblock.1, hblock.2, hfrac]
    rw [parseExpPart_safe rest hr]
    have hcond : (ip.isEmpty && List.isEmpty ([] : List Char)) = false := by
      simp [List.isEmpty_iff, hipne]
    simp [hcond, NumLit.val, hipne]
  | some f =>
    have hfp2 : ∀ c ∈ f, c.isDigit = true := by simpa using hfp
    have hblock := takeWhile_digit_block ip ('.' :: (f ++ rest)) hip
      (by show ('.').isDigit = false; decide)
    have hinner := takeWhile_digit_block f rest hfp2 hrestHead
    have hfrac : parseFrac ('.' :: (f ++ rest)) = (f, rest) := by
      simp [parseFrac, hinner.1, hinner.2]
    have hbody : renderNum ⟨neg, ip, some f⟩ ++ rest =
        (if neg then ['-'] else []) ++ (ip ++ ('.' :: (f ++ rest))) := by
      simp [renderNum]
    have hsign : parseSign (renderNum ⟨neg, ip, some f⟩ ++ rest) =
        (neg, ip ++ ('.' :: (f ++ rest))) := by
      rw [hbody]
      cases neg with
      | true => simp [parseSign]
      | false =>
        simp only [Bool.false_eq_true, if_false, List.nil_append]
        refine parseSign_body ip ('.' :: (f ++ rest)) hip (Or.inr ?_)
        intro c hc
        simp only [List.head?, Option.some.injEq] at hc
        subst hc
        exact ⟨by decide, by decide⟩
    simp only [parseNum, hsign, hblock.1, hblock.2, hfrac]
    rw [parseExpPart_safe rest hr]
    have hor : ip ≠ [] ∨ f ≠ [] := by simpa using hne
    have hcond : (ip.isEmpty && f.isEmpty) = false := by
      rcases hor with h | h <;> simp [List.isEmpty_iff, h]
    simp [hcond, NumLit.val]

theorem fieldOfToks_one (l : NumLit) : fieldOfToks [l] = renderNum l := rfl

theorem fieldOfToks_cons (l g : NumLit) (rest : List NumLit) :
    fieldOfToks (l :: g :: rest) = renderNum l ++ ' ' :: fieldOfToks (g :: rest) := rfl

theorem charClass_not_streamWs {c : Char} (h : c = '-' ∨ c = '.' ∨ c.isDigit = true) :
    streamWs c = false := by
  rcases h with h | h | h
  · subst h; decide
  · subst h; decide
  · exact streamWs_eq_false_of_isDigit h

theorem charClass_not_trimWs {c : Char} (h : c = '-' ∨ c = '.' ∨ c.isDigit = true) :
    trimWs c = false :=
  trimWs_false_of_streamWs_false (charClass_not_streamWs h)

theorem renderNum_chars (l : NumLit) (hl : l.wf) :
    ∀ c ∈ renderNum l, c = '-' ∨ c = '.' ∨ c.isDigit = true := by
  obtain ⟨hip, hfp, -⟩ := hl
  intro c hc
  rcases l with ⟨neg, ip, fp⟩
  simp only [renderNum, List.mem_append] at hc
  rcases hc with (hc | hc) | hc
  · cases neg with
    | true =>
      simp at hc
      exact Or.inl hc
    | false => simp at hc
  · exact Or.inr (Or.inr (hip c hc))
  · cases fp with
    | none => simp at hc
    | some f =>
      simp only [List.mem_cons] at hc
      rcases hc with hc | hc
      · exact Or.inr (Or.inl hc)
      · exact Or.inr (Or.inr (hfp c (by simpa using hc)))

theorem renderNum_ne_nil (l : NumLit) (hl : l.wf) : renderNum l ≠ [] := by
  obtain ⟨-, -, hne⟩ := hl
  rcases l with ⟨neg, ip, fp⟩
  cases neg with
  | true => simp [renderNum]
  | false =>
    cases fp with
    | none =>
      have hipne : ip ≠ [] := by
        rcases hne with h | h
        · exact h
        · exact absurd rfl h
      simp [renderNum, hipne]
    | some f => simp [renderNum]

theorem dropWhile_of_headFails {p : Char → Bool} {s : List Char} (h : headFails p s) :
    s.dropWhile p = s := by
  cases s with
  | nil => rfl
  | cons c r =>
    have h2 : p c = false := h
    simp [List.dropWhile, h2]

theorem headFails_append {p : Char → Bool} {xs ys : List Char} (h : headFails p xs)
    (hne : xs ≠ []) : headFails p (xs ++ ys) := by
  cases xs with
  | nil => exact absurd rfl hne
  | cons c r => exact h

theorem headFails_of_all {p : Char → Bool} {s : List Char} (h : ∀ c ∈ s, p c = false) :
    headFails p s := by
  cases s with
  | nil => trivial
  | cons c r => exact h c (List.mem_cons_self c r)

theorem renderNum_headFails_stream (l : NumLit) (hl : l.wf) :
    headFails streamWs (renderNum l) :=
  headFails_of_all fun c hc => charClass_not_streamWs (renderNum_chars l hl c hc)

theorem renderNum_headFails_trim (l : NumLit) (hl : l.wf) :
    headFails trimWs (renderNum l) :=
  headFails_of_all fun c hc => charClass_not_trimWs (renderNum_chars l hl c hc)

theorem renderNum_rev_headFails_trim (l : NumLit) (hl : l.wf) :
    headFails trimWs (renderNum l).reverse :=
  headFails_of_all fun c hc =>
    charClass_not_trimWs (renderNum_chars l hl c (List.mem_reverse.mp hc))

theorem fieldOfToks_ne_nil (ts : List NumLit) (h : ∀ t ∈ ts, t.wf) (hne : ts ≠ []) :
    fieldOfToks ts ≠ [] := by
  cases ts with
  | nil => exact absurd rfl hne
  | cons l rest =>
    cases rest with
    | nil => exact renderNum_ne_nil l (h l (List.mem_cons_self l []))
    | cons g rs =>
      rw [fieldOfToks_cons]
      simp

theorem fieldOfToks_headFails_trim (ts : List NumLit) (h : ∀ t ∈ ts, t.wf) :
    headFails trimWs (fieldOfToks ts) := by
  cases ts with
  | nil => trivial
  | cons l rest =>
    have hl := h l (List.mem_cons_self l rest)
    cases rest with
    | nil => exact renderNum_headFails_trim l hl
    | cons g rs =>
      rw [fieldOfToks_cons]
      exact headFails_append (renderNum_headFails_trim l hl) (renderNum_ne_nil l hl)

theorem fieldOfToks_rev_headFails_trim (ts : List NumLit) (h : ∀ t ∈ ts, t.wf) :
    headFails trimWs (fieldOfToks ts).reverse := by
  induction ts with
  | nil => trivial
  | cons l rest ih =>
    have hl := h l (List.mem_cons_self l rest)
    cases rest with
    | nil => exact renderNum_rev_headFails_trim l hl
    | cons g rs =>
      have hrest : ∀ t ∈ g :: rs, t.wf := fun t ht => h t (List.mem_cons_of_mem l ht)
      have hFne : fieldOfToks (g :: rs) ≠ [] := fieldOfToks_ne_nil _ hrest (by simp)
      rw [fieldOfToks_cons, List.reverse_append, List.reverse_cons, List.append_assoc]
      exact headFails_append (ih hrest) (by simpa using hFne)

theorem Trim_eq_self {s : List Char} (h1 : headFails trimWs s)
    (h2 : headFails trimWs s.reverse) : Trim s = s := by
  unfold Trim
  rw [dropWhile_of_headFails h1, dropWhile_of_headFails h2, List.reverse_reverse]

theorem restSafe_space (cs : List Char) : restSafe (' ' :: cs) :=
  ⟨by decide, by decide, by decide, by decide⟩

theorem readNum_render (l : NumLit) (hl : l.wf) (rest : List Char) (hr : restSafe rest) :
    readNum (renderNum l ++ rest) = some (l.val, rest) := by
  unfold readNum
  rw [dropWhile_of_headFails
    (headFails_append (renderNum_headFails_stream l hl) (renderNum_ne_nil l hl))]
  rcases l with ⟨neg, ip, fp⟩
  exact parseNum_render neg ip fp hl rest hr

theorem readNum_space (cs : List Char) : readNum (' ' :: cs) = readNum cs := by
  unfold readNum
  have hsp : streamWs ' ' = true := by decide
  rw [List.dropWhile_cons, if_pos hsp]

/-- Reading one double from a one-token field consumes everything. -/
theorem readNum_field_one (l : NumLit) (hl : l.wf) :
    readNum (fieldOfToks [l]) = some (l.val, []) := by
  have hthis := readNum_render l hl [] trivial
  rw [fieldOfToks_one]
  simpa using hthis

/-- Reading one double from a multi-token field consumes exactly the
first token, leaving the separating space and the rest. -/
theorem readNum_field_many (l g : NumLit) (rs : List NumLit) (hl : l.wf) :
    readNum (fieldOfToks (l :: g :: rs)) = some (l.val, ' ' :: fieldOfToks (g :: rs)) := by
  rw [fieldOfToks_cons]
  exact readNum_render l hl (' ' :: fieldOfToks (g :: rs)) (restSafe_space _)

/-- `ParseSinglePoint` on a field of at least three well-formed tokens
succeeds with the first three values; tokens beyond the third are
ignored. -/
theorem ParseSinglePoint_three (a b c : NumLit) (rest3 : List NumLit)
    (h : ∀ t ∈ a :: b :: c :: rest3, t.wf) :
    ParseSinglePoint (fieldOfToks (a :: b :: c :: rest3)) = .ok ⟨a.val, b.val, c.val⟩ := by
  have ha : a.wf := h a (by simp)
  have hb : b.wf := h b (by simp)
  have hc : c.wf := h c (by simp)
  have htrim : Trim (fieldOfToks (a :: b :: c :: rest3)) = fieldOfToks (a :: b :: c :: rest3) :=
    Trim_eq_self (fieldOfToks_headFails_trim _ h) (fieldOfToks_rev_headFails_trim _ h)
  have h1 := readNum_field_many a b (c :: rest3) ha
  have h2 : readNum (' ' :: fieldOfToks (b :: c :: rest3)) =
      some (b.val, ' ' :: fieldOfToks (c :: rest3)) := by
    rw [readNum_space]
    exact readNum_field_many b c rest3 hb
  cases rest3 with
  | nil =>
    have h3 : readNum (' ' :: fieldOfToks [c]) = some (c.val, []) := by
      rw [readNum_space]
      exact readNum_field_one c hc
    simp only [ParseSinglePoint, htrim, h1, h2, h3]
  | cons d rest4 =>
    have h3 : readNum (' ' :: fieldOfToks (c :: d :: rest4)) =
        some (c.val, ' ' :: fieldOfToks (d :: rest4)) := by
      rw [readNum_space]
      exact readNum_field_many c d rest4 hc
    simp only [ParseSinglePoint, htrim, h1, h2, h3]

/-- `ParseSinglePoint` on a field of fewer than three well-formed tokens
fails. -/
theorem ParseSinglePoint_short (ts : List NumLit) (h : ∀ t ∈ ts, t.wf)
    (hlen : ts.length < 3) :
    ParseSinglePoint (fieldOfToks ts) = .error "Malformed WKT point" := by
  have htrim : Trim (fieldOfToks ts) = fieldOfToks ts :=
    Trim_eq_self (fieldOfToks_headFails_trim ts h) (fieldOfToks_rev_headFails_trim ts h)
  have hnilRead : readNum [] = none := rfl
  cases ts with
  | nil => rfl
  | cons a rest =>
    have ha : a.wf := h a (by simp)
    cases rest with
    | nil =>
      have h1 := readNum_field_one a ha
      simp only [ParseSinglePoint, htrim, h1, hnilRead]
    | cons b rest2 =>
      have hb : b.wf := h b (by simp)
      have h1 := readNum_field_many a b rest2 ha
      cases rest2 with
      | nil =>
        have h2 : readNum (' ' :: fieldOfToks [b]) = some (b.val, []) := by
          rw [readNum_space]
          exact readNum_field_one b hb
        simp only [ParseSinglePoint, htrim, h1, h2, hnilRead]
      | cons c rest3 =>
        simp only [List.length_cons] at hlen
        omega

theorem isPrefixOf_append_self (p ys : List Char) : p.isPrefixOf (p ++ ys) = true := by
  rw [List.isPrefixOf_iff_prefix]
  exact List.prefix_append p ys

theorem containsSub_append_self (pat ys : List Char) (hne : pat ≠ []) :
    containsSub pat (pat ++ ys) = true := by
  cases pat with
  | nil => exact absurd rfl hne
  | cons c r =>
    have h1 : (c :: r).isPrefixOf ((c :: r) ++ ys) = true := isPrefixOf_append_self _ _
    simp only [List.cons_append] at h1 ⊢
    simp [containsSub, h1]

theorem findIdxOf_first (c : Char) (pre rest : List Char) (h : ∀ d ∈ pre, d ≠ c) :
    findIdxOf c (pre ++ c :: rest) = some pre.length := by
  induction pre with
  | nil => simp [findIdxOf]
  | cons d pre ih =>
    have hd : d ≠ c := h d (List.mem_cons_self d pre)
    have ih2 := ih fun e he => h e (List.mem_cons_of_mem d he)
    simp [findIdxOf, hd, ih2]

/-- Extraction on the canonical shape: anything before the first `(`,
anything inside, the final `)`. -/
theorem extract_wrapped (pre mid : List Char) (hpre : ∀ d ∈ pre, d ≠ '(') :
    ExtractParenthesesContent (pre ++ '(' :: (mid ++ [')'])) = some mid := by
  have hopen : findIdxOf '(' (pre ++ '(' :: (mid ++ [')'])) = some pre.length :=
    findIdxOf_first '(' pre (mid ++ [')']) hpre
  have hrevshape : (pre ++ '(' :: (mid ++ [')'])).reverse =
      ')' :: ((pre ++ '(' :: mid).reverse) := by
    have : pre ++ '(' :: (mid ++ [')']) = (pre ++ '(' :: mid) ++ [')'] := by
      simp
    rw [this, List.reverse_append, List.reverse_singleton]
    rfl
  have hlen : (pre ++ '(' :: (mid ++ [')'])).length =
      pre.length + mid.length + 2 := by
    simp [List.length_append]
    omega
  have hclose : rfindIdxOf ')' (pre ++ '(' :: (mid ++ [')'])) =
      some (pre.length + mid.length + 1) := by
    unfold rfindIdxOf
    rw [hrevshape]
    simp only [findIdxOf, if_pos rfl, hlen]
    congr 1
  have hshape2 : pre ++ '(' :: (mid ++ [')']) = (pre ++ ['(']) ++ (mid ++ [')']) := by
    simp
  have hlt : ¬ (pre.length + mid.length + 1 ≤ pre.length) := by omega
  simp only [ExtractParenthesesContent, hopen, hclose, if_neg hlt]
  congr 1
  have hdrop : (pre ++ '(' :: (mid ++ [')'])).drop (pre.length + 1) = mid ++ [')'] := by
    rw [hshape2]
    have hl : (pre ++ ['(']).length = pre.length + 1 := by simp
    rw [← hl, List.drop_left]
  rw [hdrop]
  have harith : pre.length + mid.length + 1 - pre.length - 1 = mid.length := by omega
  rw [harith, List.take_left]

/-! ### Splitting the payload back into fields -/
theorem splitCommaAux_through (f : List Char) (cs acc : List Char)
    (hf : ∀ c ∈ f, c ≠ ',') :
    splitCommaAux (f ++ cs) acc = splitCommaAux cs (f.reverse ++ acc) := by
  induction f generalizing acc with
  | nil => simp
  | cons c r ih =>
    have hc : c ≠ ',' := hf c (List.mem_cons_self c r)
    have ih2 := ih (c :: acc) (fun e he => hf e (List.mem_cons_of_mem c he))
    simp only [List.cons_append, splitCommaAux, if_neg hc]
    rw [List.reverse_cons, List.append_assoc, List.singleton_append]
    exact ih2

theorem splitComma_eq_aux (cs : List Char) (h : cs ≠ []) :
    splitComma cs = splitCommaAux cs [] := by
  cases cs with
  | nil => exact absurd rfl h
  | cons c r => rfl

theorem joinSep_ne_nil (sep : Char) (fs : List (List Char)) (hfs : ∀ f ∈ fs, f ≠ [])
    (hne : fs ≠ []) : joinSep sep fs ≠ [] := by
  cases fs with
  | nil => exact absurd rfl hne
  | cons f rest =>
    cases rest with
    | nil => exact hfs f (List.mem_cons_self f [])
    | cons g rs => simp [joinSep]

/-- `getline`-splitting is a left inverse of joining on nonempty
comma-free fields. -/
theorem splitComma_joinSep (fs : List (List Char)) (hcs : ∀ f ∈ fs, ∀ c ∈ f, c ≠ ',')
    (hfs : ∀ f ∈ fs, f ≠ []) (hne : fs ≠ []) :
    splitComma (joinSep ',' fs) = fs := by
  induction fs with
  | nil => exact absurd rfl hne
  | cons f rest ih =>
    have hfcs : ∀ c ∈ f, c ≠ ',' := hcs f (List.mem_cons_self f rest)
    have hfne : f ≠ [] := hfs f (List.mem_cons_self f rest)
    cases rest with
    | nil =>
      show splitComma f = [f]
      rw [splitComma_eq_aux f hfne]
      have hthrough := splitCommaAux_through f [] [] hfcs
      simpa [splitCommaAux] using hthrough
    | cons g rs =>
      have hJ : joinSep ',' (f :: g :: rs) = f ++ ',' :: joinSep ',' (g :: rs) := rfl
      have hJne : joinSep ',' (g :: rs) ≠ [] :=
        joinSep_ne_nil ',' (g :: rs) (fun e he => hfs e (List.mem_cons_of_mem f he)) (by simp)
      have hJempty : (joinSep ',' (g :: rs)).isEmpty = false := by
        cases hJv : joinSep ',' (g :: rs) with
        | nil => exact absurd hJv hJne
        | cons a b => rfl
      have hne2 : f ++ ',' :: joinSep ',' (g :: rs) ≠ [] := by simp
      rw [hJ, splitComma_eq_aux _ hne2,
        splitCommaAux_through f (',' :: joinSep ',' (g :: rs)) [] hfcs]
      have hstep : splitCommaAux (',' :: joinSep ',' (g :: rs)) (f.reverse ++ []) =
          f :: splitCommaAux (joinSep ',' (g :: rs)) [] := by
        simp [splitCommaAux, hJempty]
      rw [hstep, ← splitComma_eq_aux _ hJne,
        ih (fun e he => hcs e (List.mem_cons_of_mem f he))
          (fun e he => hfs e (List.mem_cons_of_mem f he)) (by simp)]

/-! ### The round-trip theorem infrastructure -/
theorem fieldOfToks_chars (ts : List NumLit) :
    ∀ c ∈ fieldOfToks ts, c = ' ' ∨ ∃ t ∈ ts, c ∈ renderNum t := by
  induction ts with
  | nil => intro c hc; cases hc
  | cons l rest ih =>
    cases rest with
    | nil =>
      intro c hc
      rw [fieldOfToks_one] at hc
      exact Or.inr ⟨l, by simp, hc⟩
    | cons g rs =>
      intro c hc
      rw [fieldOfToks_cons] at hc
      rcases List.mem_append.mp hc with hc | hc
      · exact Or.inr ⟨l, by simp, hc⟩
      · rcases List.mem_cons.mp hc with hc | hc
        · exact Or.inl hc
        · rcases ih c hc with h | ⟨t, ht, hct⟩
          · exact Or.inl h
          · exact Or.inr ⟨t, List.mem_cons_of_mem l ht, hct⟩

theorem charClass_ne_comma {c : Char} (h : c = '-' ∨ c = '.' ∨ c.isDigit = true) :
    c ≠ ',' := by
  rcases h with h | h | h
  · subst h; decide
  · subst h; decide
  · exact isDigit_ne h (by decide)

theorem tripleToks_wf (t : NumLit × NumLit × NumLit) (h : TripleWf t) :
    ∀ tok ∈ [t.1, t.2.1, t.2.2], tok.wf := by
  intro tok htok
  simp only [List.mem_cons, List.not_mem_nil, or_false] at htok
  rcases htok with h1 | h1 | h1 <;> subst h1
  · exact h.1
  · exact h.2.1
  · exact h.2.2

theorem fieldOfTriple_comma_free (t : NumLit × NumLit × NumLit) (h : TripleWf t) :
    ∀ c ∈ fieldOfTriple t, c ≠ ',' := by
  intro c hc
  rcases fieldOfToks_chars _ c hc with h1 | ⟨tok, htok, hctok⟩
  · subst h1; decide
  · exact charClass_ne_comma (renderNum_chars tok (tripleToks_wf t h tok htok) c hctok)

theorem parsePointsLoop_triples (pts : List (NumLit × NumLit × NumLit))
    (h : ∀ t ∈ pts, TripleWf t) :
    parsePointsLoop (pts.map fieldOfTriple) = .ok (pts.map tripleVal) := by
  induction pts with
  | nil => rfl
  | cons t rest ih =>
    have ht := h t (List.mem_cons_self t rest)
    have hpt : ParseSinglePoint (fieldOfTriple t) = .ok (tripleVal t) :=
      ParseSinglePoint_three t.1 t.2.1 t.2.2 [] (tripleToks_wf t ht)
    have ihr := ih fun e he => h e (List.mem_cons_of_mem t he)
    simp only [List.map_cons, parsePointsLoop, hpt, ihr]

theorem upperStr_append (a b : List Char) : upperStr (a ++ b) = upperStr a ++ upperStr b :=
  List.map_append _ a b

/-- C5: for every well-formed input string of the shape
`LINESTRING Z(p1,...,pn)` with `n ≥ 2` comma-separated coordinate
triples of numeric tokens, the line-string decoder returns exactly `n`
points, in the input order, with each coordinate equal to the exact
value of the corresponding numeric token (exact numeric round-trip). -/
theorem C5_linestring_roundtrip (pts : List (NumLit × NumLit × NumLit))
    (hwf : ∀ t ∈ pts, TripleWf t) (hlen : 2 ≤ pts.length) :
    ParseLineStringZ (mkLineStringZ pts) = .ok (pts.map tripleVal) := by
  have hkw : containsSub linestringKeyword (upperStr (mkLineStringZ pts)) = true := by
    unfold mkLineStringZ
    rw [upperStr_append, show upperStr lsHeader = lsHeader from by decide,
      show lsHeader = linestringKeyword ++ [' ', 'Z'] from rfl, List.append_assoc]
    exact containsSub_append_self _ _ (by decide)
  have hex : ExtractParenthesesContent (mkLineStringZ pts) = some (payloadOfPts pts) :=
    extract_wrapped lsHeader (payloadOfPts pts) (by decide)
  have hne : pts ≠ [] := by
    intro h0
    rw [h0] at hlen
    exact absurd hlen (by decide)
  have hfields : splitComma (payloadOfPts pts) = pts.map fieldOfTriple := by
    refine splitComma_joinSep _ ?_ ?_ ?_
    · intro f hf c hc
      rcases List.mem_map.mp hf with ⟨t, ht, rfl⟩
      exact fieldOfTriple_comma_free t (hwf t ht) c hc
    · intro f hf
      rcases List.mem_map.mp hf with ⟨t, ht, rfl⟩
      exact fieldOfToks_ne_nil _ (tripleToks_wf t (hwf t ht)) (by simp)
    · simpa using hne
  have hloop := parsePointsLoop_triples pts hwf
  have hnotlt : ¬ ((pts.map tripleVal).length < 2) := by
    rw [List.length_map]
    omega
  simp only [ParseLineStringZ, hkw, hex, hfields, hloop, if_neg hnotlt]
  simp

theorem extract_none_of_missing (wkt : List Char)
    (h : findIdxOf '(' wkt = none ∨ rfindIdxOf ')' wkt = none ∨
      ∃ o c, findIdxOf '(' wkt = some o ∧ rfindIdxOf ')' wkt = some c ∧ c ≤ o) :
    ExtractParenthesesContent wkt = none := by
  unfold ExtractParenthesesContent
  rcases h with h | h | ⟨o, c, h1, h2, h3⟩
  · rw [h]
  · rw [h]
    cases findIdxOf '(' wkt <;> rfl
  · rw [h1, h2]
    exact if_pos h3

theorem ParseLineStringZ_isErr_of_extract_none (wkt : List Char)
    (h : ExtractParenthesesContent wkt = none) :
    ∃ e, ParseLineStringZ wkt = .error e := by
  unfold ParseLineStringZ
  cases hcs : containsSub linestringKeyword (upperStr wkt) with
  | false => exact ⟨"WKT string is not a LINESTRING", by simp⟩
  | true =>
    refine ⟨"Malformed WKT: missing or mismatched parentheses", ?_⟩
    simp [h]

theorem ParseLineStringZ_isErr_of_empty_payload (wkt : List Char)
    (h : ExtractParenthesesContent wkt = some []) :
    ∃ e, ParseLineStringZ wkt = .error e := by
  unfold ParseLineStringZ
  cases hcs : containsSub linestringKeyword (upperStr wkt) with
  | false => exact ⟨"WKT string is not a LINESTRING", by simp⟩
  | true =>
    refine ⟨"LINESTRING must have at least 2 points", ?_⟩
    simp [h, splitComma, parsePointsLoop]

theorem ParseLineStringZ_ok_length (wkt : List Char) (pts : List Vector3)
    (h : ParseLineStringZ wkt = .ok pts) : 2 ≤ pts.length := by
  unfold ParseLineStringZ at h
  split at h
  · cases h
  · split at h
    · cases h
    · split at h
      · cases h
      · split at h
        · cases h
        · rename_i hnlt
          cases h
          omega

/-- C7: the line-string decoder fails for: an input without the keyword
(with that exact error); an input that would otherwise produce fewer
than 2 points (a successful decode always returns at least 2); an input
whose parenthesis payload is empty; and an input whose first opening
parenthesis is missing, whose last closing parenthesis is missing, or
whose first open is at or after the last close. -/
theorem C7_decoder_error_paths :
    (∀ wkt, containsSub linestringKeyword (upperStr wkt) = false →
      ParseLineStringZ wkt = .error "WKT string is not a LINESTRING") ∧
    (∀ wkt pts, ParseLineStringZ wkt = .ok pts → 2 ≤ pts.length) ∧
    (∀ wkt, ExtractParenthesesContent wkt = some [] →
      ∃ e, ParseLineStringZ wkt = .error e) ∧
    (∀ wkt, (findIdxOf '(' wkt = none ∨ rfindIdxOf ')' wkt = none ∨
        ∃ o c, findIdxOf '(' wkt = some o ∧ rfindIdxOf ')' wkt = some c ∧ c ≤ o) →
      ∃ e, ParseLineStringZ wkt = .error e) := by
  refine ⟨?_, ?_, ?_, ?_⟩
  · intro wkt h
    unfold ParseLineStringZ
    rw [if_pos h]
  · exact ParseLineStringZ_ok_length
  · exact ParseLineStringZ_isErr_of_empty_payload
  · intro wkt h
    exact ParseLineStringZ_isErr_of_extract_none wkt (extract_none_of_missing wkt h)

/-- Witness for C7 at a concrete keyword-less input. -/
theorem C7_witness :
    containsSub linestringKeyword (upperStr (String.toList "POLYGON Z(0 0 0, 1 1 1)")) = false ∧
    ParseLineStringZ (String.toList "POLYGON Z(0 0 0, 1 1 1)") =
      .error "WKT string is not a LINESTRING" :=
  ⟨by decide, C7_decoder_error_paths.1 _ (by decide)⟩

/-- Witness for C5 at a concrete two-point input. -/
theorem C5_witness :
    (∀ t ∈ ([(⟨false, ['1'], none⟩, ⟨false, ['2'], none⟩, ⟨false, ['3'], none⟩),
        (⟨true, ['4'], some ['5']⟩, ⟨false, [], some ['2', '5']⟩, ⟨false, ['0'], none⟩)] :
        List (NumLit × NumLit × NumLit)), TripleWf t) ∧
    ParseLineStringZ (mkLineStringZ
      [(⟨false, ['1'], none⟩, ⟨false, ['2'], none⟩, ⟨false, ['3'], none⟩),
        (⟨true, ['4'], some ['5']⟩, ⟨false, [], some ['2', '5']⟩, ⟨false, ['0'], none⟩)]) =
      .ok ([(⟨false, ['1'], none⟩, ⟨false, ['2'], none⟩, ⟨false, ['3'], none⟩),
        (⟨true, ['4'], some ['5']⟩, ⟨false, [], some ['2', '5']⟩,
          ⟨false, ['0'], none⟩)].map tripleVal) :=
  ⟨by decide, C5_linestring_roundtrip _ (by decide) (by decide)⟩

/-- C8 counterexample: the field `1 2 3 4` carries four whitespace
tokens, not three, yet `ParseSinglePoint` accepts it (the C++ stream
extraction never looks past the third number), contradicting the claim
that such a field is rejected. -/
theorem C8_counterexample :
    countStreamToks (String.toList "1 2 3 4") = 4 ∧
    ParseSinglePoint (String.toList "1 2 3 4") = .ok ⟨1, 2, 3⟩ :=
  ⟨by decide, by decide⟩

/-- C8 (amended): each comma-delimited field is whitespace-trimmed and
read as three whitespace-separated numeric tokens (x y z) in that
order; parsing fails iff fewer than three numeric tokens are present.
A field with more than three tokens is accepted, the extra tokens being
ignored. -/
theorem C8_field_three_tokens (ts : List NumLit) (h : ∀ t ∈ ts, t.wf) :
    (3 ≤ ts.length → ∃ a b c rest, ts = a :: b :: c :: rest ∧
      ParseSinglePoint (fieldOfToks ts) = .ok ⟨a.val, b.val, c.val⟩) ∧
    (ts.length < 3 → ParseSinglePoint (fieldOfToks ts) = .error "Malformed WKT point") := by
  constructor
  · intro hlen
    match ts, h with
    | a :: b :: c :: rest, h =>
      exact ⟨a, b, c, rest, rfl, ParseSinglePoint_three a b c rest h⟩
    | [], h => simp at hlen
    | [a], h => simp at hlen
    | [a, b], h => simp at hlen
  · intro hlen
    exact ParseSinglePoint_short ts h hlen

/-- Witness for C8 at a concrete four-token field. -/
theorem C8_witness :
    ∃ a b c rest,
      ([⟨false, ['1'], none⟩, ⟨false, ['2'], none⟩, ⟨false, ['3'], none⟩,
        ⟨false, ['4'], none⟩] : List NumLit) = a :: b :: c :: rest ∧
      ParseSinglePoint (fieldOfToks [⟨false, ['1'], none⟩, ⟨false, ['2'], none⟩,
        ⟨false, ['3'], none⟩, ⟨false, ['4'], none⟩]) = .ok ⟨a.val, b.val, c.val⟩ :=
  (C8_field_three_tokens _ (by decide)).1 (by decide)

/-! ### Association-list lemmas -/

theorem mapFind_nil {α : Type} (k : String) : mapFind ([] : List (String × α)) k = none := rfl

theorem mapFind_cons {α : Type} (p : String × α) (rest : List (String × α)) (k : String) :
    mapFind (p :: rest) k = if p.1 = k then some p.2 else mapFind rest k := by
  by_cases h : p.1 = k
  · have hb : (p.1 == k) = true := by simp [h]
    simp [mapFind, List.find?, hb, h]
  · have hb : (p.1 == k) = false := by simp [h]
    simp [mapFind, List.find?, hb, h]

theorem mapFind_mapSet_self {α : Type} (m : List (String × α)) (k : String) (v : α) :
    mapFind (mapSet m k v) k = some v := by
  induction m with
  | nil => simp [mapSet, mapFind_cons]
  | cons p rest ih =>
    by_cases h : p.1 = k
    · simp [mapSet, h, mapFind_cons]
    · simp [mapSet, h, mapFind_cons, ih]

theorem mapFind_mapSet_ne {α : Type} (m : List (String × α)) (k k2 : String) (v : α)
    (h : k2 ≠ k) : mapFind (mapSet m k v) k2 = mapFind m k2 := by
  have h2 : ¬ (k = k2) := fun he => h he.symm
  induction m with
  | nil => simp [mapSet, mapFind_cons, h2]
  | cons p rest ih =>
    by_cases hp : p.1 = k
    · subst hp
      simp [mapSet, mapFind_cons, h2]
    · simp [mapSet, hp, mapFind_cons, ih]

theorem mapFind_mapUpdate_self {α : Type} (m : List (String × α)) (k : String) (f : α → α) :
    mapFind (mapUpdate m k f) k = (mapFind m k).map f := by
  induction m with
  | nil => simp [mapUpdate, mapFind_nil]
  | cons p rest ih =>
    by_cases h : p.1 = k
    · simp [mapUpdate, h, mapFind_cons]
    · simp [mapUpdate, h, mapFind_cons, ih]

theorem mapFind_mapUpdate_ne {α : Type} (m : List (String × α)) (k k2 : String) (f : α → α)
    (h : k2 ≠ k) : mapFind (mapUpdate m k f) k2 = mapFind m k2 := by
  induction m with
  | nil => simp [mapUpdate]
  | cons p rest ih =>
    by_cases hp : p.1 = k
    · subst hp
      simp [mapUpdate, mapFind_cons, Ne.symm h]
    · simp [mapUpdate, hp, mapFind_cons, ih]

theorem mapFind_append_sngl {α : Type} (m : List (String × α)) (k k2 : String) (v : α) :
    mapFind (m ++ [(k, v)]) k2 =
      match mapFind m k2 with
      | some w => some w
      | none => if k = k2 then some v else none := by
  induction m with
  | nil => simp [mapFind_cons, mapFind_nil]
  | cons p rest ih =>
    by_cases h : p.1 = k2
    · simp [mapFind_cons, h]
    · simp [mapFind_cons, h, ih]

theorem mapKeys_mapUpdate {α : Type} (m : List (String × α)) (k : String) (f : α → α) :
    mapKeys (mapUpdate m k f) = mapKeys m := by
  induction m with
  | nil => rfl
  | cons p rest ih =>
    by_cases h : p.1 = k
    · simp [mapUpdate, h, mapKeys]
    · simp only [mapUpdate, if_neg h]
      simp only [mapKeys, List.map_cons] at ih ⊢
      rw [ih]

theorem mapFind_none_of_not_mem_keys {α : Type} (m : List (String × α)) (k : String)
    (h : k ∉ mapKeys m) : mapFind m k = none := by
  induction m with
  | nil => rfl
  | cons p rest ih =>
    simp only [mapKeys, List.map_cons, List.mem_cons] at h
    push_neg at h
    rw [mapFind_cons, if_neg (fun he => h.1 he.symm)]
    exact ih (by simpa [mapKeys] using h.2)

theorem not_mem_keys_of_mapFind_none {α : Type} (m : List (String × α)) (k : String)
    (h : mapFind m k = none) : k ∉ mapKeys m := by
  induction m with
  | nil => simp [mapKeys]
  | cons p rest ih =>
    rw [mapFind_cons] at h
    by_cases hp : p.1 = k
    · rw [if_pos hp] at h
      cases h
    · rw [if_neg hp] at h
      simp only [mapKeys, List.map_cons, List.mem_cons]
      push_neg
      exact ⟨fun he => hp he.symm, by simpa [mapKeys] using ih h⟩

theorem mapFind_of_mem_nodup {α : Type} (m : List (String × α)) (p : String × α)
    (hmem : p ∈ m) (hnd : (mapKeys m).Nodup) : mapFind m p.1 = some p.2 := by
  induction m with
  | nil => cases hmem
  | cons q rest ih =>
    simp only [mapKeys, List.map_cons, List.nodup_cons] at hnd
    rcases List.mem_cons.mp hmem with h | h
    · subst h
      rw [mapFind_cons, if_pos rfl]
    · have hq : q.1 ≠ p.1 := by
        intro he
        exact hnd.1 (he ▸ List.mem_map_of_mem Prod.fst h)
      rw [mapFind_cons, if_neg hq]
      exact ih h (by simpa [mapKeys] using hnd.2)

/-! ### C10: branch-point row with unknown side -/

theorem processBpRow_drop_side (maps : BpMaps) (bp lid side le_str : String)
    (ha : side ≠ "a") (hb : side ≠ "b") (hle : le_str = "start" ∨ le_str = "finish") :
    processBpRow maps ⟨some bp, some lid, some side, some le_str⟩ = .ok maps := by
  rcases hle with h | h <;> subst h <;>
    simp [processBpRow, LaneEndWhichFromString, ha, hb]

theorem processBpRow_err (maps : BpMaps) (bp lid side le_str : String)
    (h1 : le_str ≠ "start") (h2 : le_str ≠ "finish") :
    processBpRow maps ⟨some bp, some lid, some side, some le_str⟩ =
      .error ("Invalid lane_end value: " ++ le_str) := by
  simp [processBpRow, LaneEndWhichFromString, h1, h2]

theorem bpLoop_err_of_mem (rows : List BpRow) (maps : BpMaps) (r : BpRow) (hr : r ∈ rows)
    (herr : ∀ m : BpMaps, ∃ e, processBpRow m r = .error e) :
    ∃ e, bpLoop maps rows = .error e := by
  induction rows generalizing maps with
  | nil => cases hr
  | cons r0 rest ih =>
    rcases List.mem_cons.mp hr with h | h
    · subst h
      obtain ⟨e, he⟩ := herr maps
      exact ⟨e, by simp [bpLoop, he]⟩
    · cases hstep : processBpRow maps r0 with
      | error e => exact ⟨e, by simp [bpLoop, hstep]⟩
      | ok m2 =>
        obtain ⟨e, he⟩ := ih m2 h
        exact ⟨e, by simp [bpLoop, hstep, he]⟩

/-- C10: a branch-point-lanes row with all four columns non-null and a
side other than `a`/`b` contributes nothing and is dropped without
error when its lane_end is valid — but the lane_end column is converted
first, so such a row with a lane_end other than `start`/`finish` aborts
the whole build. -/
theorem C10_side_dropped_but_lane_end_validated :
    (∀ (maps : BpMaps) (bp lid side le_str : String), side ≠ "a" → side ≠ "b" →
      (le_str = "start" ∨ le_str = "finish") →
      processBpRow maps ⟨some bp, some lid, some side, some le_str⟩ = .ok maps) ∧
    (∀ (rows : List BpRow) (bp lid side le_str : String),
      (⟨some bp, some lid, some side, some le_str⟩ : BpRow) ∈ rows →
      le_str ≠ "start" → le_str ≠ "finish" →
      ∃ e, BuildBranchPointConnections rows = .error e) := by
  constructor
  · exact processBpRow_drop_side
  · intro rows bp lid side le_str hmem h1 h2
    obtain ⟨e, he⟩ := bpLoop_err_of_mem rows ⟨[], []⟩ _ hmem
      (fun m => ⟨_, processBpRow_err m bp lid side le_str h1 h2⟩)
    exact ⟨e, by simp [BuildBranchPointConnections, he]⟩

/-- Witness for C10: a concrete side-`c` row with a valid end is
dropped, while one with an invalid end aborts the build. -/
theorem C10_witness :
    processBpRow ⟨[], []⟩ ⟨some "bp1", some "l1", some "c", some "start"⟩ = .ok ⟨[], []⟩ ∧
    (∃ e, BuildBranchPointConnections
      [⟨some "bp1", some "l1", some "c", some "middle"⟩] = .error e) :=
  ⟨C10_side_dropped_but_lane_end_validated.1 ⟨[], []⟩ "bp1" "l1" "c" "start"
      (by decide) (by decide) (Or.inl rfl),
    C10_side_dropped_but_lane_end_validated.2 _ "bp1" "l1" "c" "middle"
      (by simp) (by decide) (by decide)⟩

/-! ### C4: branch-point cross product -/

theorem crossConnections_length (as_ bs : List LaneEnd) :
    (crossConnections as_ bs).length = as_.length * bs.length := by
  induction as_ with
  | nil => simp [crossConnections]
  | cons a rest ih =>
    simp [crossConnections, ih, Nat.succ_mul, Nat.add_comm]

theorem mem_crossConnections (as_ bs : List LaneEnd) (a b : LaneEnd)
    (ha : a ∈ as_) (hb : b ∈ bs) : (⟨a, b⟩ : Connection) ∈ crossConnections as_ bs := by
  induction as_ with
  | nil => cases ha
  | cons a0 rest ih =>
    rcases List.mem_cons.mp ha with h | h
    · subst h
      exact List.mem_append_left _ (List.mem_map_of_mem _ hb)
    · exact List.mem_append_right _ (ih h)

theorem mem_of_mapFind {α : Type} (m : List (String × α)) (k : String) (v : α)
    (h : mapFind m k = some v) : (k, v) ∈ m := by
  induction m with
  | nil => cases h
  | cons p rest ih =>
    rw [mapFind_cons] at h
    by_cases hp : p.1 = k
    · rw [if_pos hp] at h
      rcases p with ⟨pk, pv⟩
      cases h
      cases hp
      exact List.mem_cons_self _ _
    · rw [if_neg hp] at h
      exact List.mem_cons_of_mem _ (ih h)

theorem mapKeys_mapPush_nodup {α : Type} (m : List (String × List α)) (k : String) (v : α)
    (h : (mapKeys m).Nodup) : (mapKeys (mapPush m k v)).Nodup := by
  unfold mapPush
  cases hf : mapFind m k with
  | some l =>
    unfold mapKeys
    rw [show (mapUpdate m k fun l => l ++ [v]).map Prod.fst = mapKeys (mapUpdate m k _)
      from rfl, mapKeys_mapUpdate]
    exact h
  | none =>
    have hk := not_mem_keys_of_mapFind_none m k hf
    unfold mapKeys at h hk ⊢
    rw [List.map_append]
    refine List.Nodup.append h (List.nodup_singleton k) ?_
    intro a ha hb
    rcases List.mem_singleton.mp hb with rfl
    exact hk ha

theorem processBpRow_nodup (maps maps2 : BpMaps) (r : BpRow)
    (h : processBpRow maps r = .ok maps2)
    (ha : (mapKeys maps.aSide).Nodup) (hb : (mapKeys maps.bSide).Nodup) :
    (mapKeys maps2.aSide).Nodup ∧ (mapKeys maps2.bSide).Nodup := by
  unfold processBpRow at h
  split at h
  · split at h
    · cases h
    · split at h
      · cases h
        exact ⟨mapKeys_mapPush_nodup _ _ _ ha, hb⟩
      · split at h
        · cases h
          exact ⟨ha, mapKeys_mapPush_nodup _ _ _ hb⟩
        · cases h
          exact ⟨ha, hb⟩
  · cases h
    exact ⟨ha, hb⟩

theorem bpLoop_nodup (rows : List BpRow) (maps maps2 : BpMaps)
    (h : bpLoop maps rows = .ok maps2)
    (ha : (mapKeys maps.aSide).Nodup) (hb : (mapKeys maps.bSide).Nodup) :
    (mapKeys maps2.aSide).Nodup ∧ (mapKeys maps2.bSide).Nodup := by
  induction rows generalizing maps with
  | nil =>
    cases h
    exact ⟨ha, hb⟩
  | cons r rest ih =>
    unfold bpLoop at h
    cases hstep : processBpRow maps r with
    | error e =>
      rw [hstep] at h
      cases h
    | ok m2 =>
      rw [hstep] at h
      obtain ⟨h1, h2⟩ := processBpRow_nodup maps m2 r hstep ha hb
      exact ih m2 h h1 h2

theorem emitLoop_sum (maps : BpMaps) (entries : List (String × List LaneEnd))
    (hsub : ∀ p ∈ entries, mapFind maps.aSide p.1 = some p.2) :
    emitLoop maps.bSide entries = sumContributions maps entries := by
  induction entries with
  | nil => rfl
  | cons p rest ih =>
    rcases p with ⟨bp, as_⟩
    have hfind := hsub (bp, as_) (List.mem_cons_self _ _)
    have ihr := ih fun q hq => hsub q (List.mem_cons_of_mem _ hq)
    unfold emitLoop sumContributions
    rw [ihr]
    congr 1
    unfold bpContribution
    rw [hfind]
    cases mapFind maps.bSide bp <;> rfl

/-- C4: for every branch point present in both side groupings with `m`
a-side lane-ends and `n` b-side lane-ends, exactly `m*n` connections
are emitted — the full cross product, one per (a-end, b-end) pair; a
branch point grouped on only one side contributes zero connections, and
the build as a whole succeeds. -/
theorem C4_cross_product (rows : List BpRow) (maps : BpMaps)
    (hok : bpLoop ⟨[], []⟩ rows = .ok maps) :
    BuildBranchPointConnections rows = .ok (emitLoop maps.bSide maps.aSide) ∧
    emitLoop maps.bSide maps.aSide = sumContributions maps maps.aSide ∧
    (∀ bp as_ bs, mapFind maps.aSide bp = some as_ → mapFind maps.bSide bp = some bs →
      bpContribution maps bp = crossConnections as_ bs ∧
      (bpContribution maps bp).length = as_.length * bs.length ∧
      ∀ a ∈ as_, ∀ b ∈ bs, (⟨a, b⟩ : Connection) ∈ bpContribution maps bp) ∧
    (∀ bp, mapFind maps.aSide bp = none ∨ mapFind maps.bSide bp = none →
      bpContribution maps bp = []) := by
  obtain ⟨hndA, hndB⟩ := bpLoop_nodup rows ⟨[], []⟩ maps hok List.nodup_nil List.nodup_nil
  refine ⟨?_, ?_, ?_, ?_⟩
  · unfold BuildBranchPointConnections
    rw [hok]
  · exact emitLoop_sum maps maps.aSide
      (fun p hp => mapFind_of_mem_nodup maps.aSide p hp hndA)
  · intro bp as_ bs hfa hfb
    have hco : bpContribution maps bp = crossConnections as_ bs := by
      unfold bpContribution
      rw [hfa, hfb]
    refine ⟨hco, ?_, ?_⟩
    · rw [hco]
      exact crossConnections_length as_ bs
    · intro a haa b hbb
      rw [hco]
      exact mem_crossConnections as_ bs a b haa hbb
  · intro bp h
    unfold bpContribution
    rcases h with h | h
    · rw [h]
    · rw [h]
      cases mapFind maps.aSide bp <;> rfl

/-- Witness for C4: one branch point with 2 a-ends and 2 b-ends yields
exactly 4 connections; another with only an a-side yields none. -/
theorem C4_witness :
    BuildBranchPointConnections
        [⟨some "bp1", some "l1", some "a", some "start"⟩,
          ⟨some "bp1", some "l2", some "a", some "finish"⟩,
          ⟨some "bp1", some "l3", some "b", some "start"⟩,
          ⟨some "bp1", some "l4", some "b", some "start"⟩,
          ⟨some "bp2", some "l5", some "a", some "start"⟩] =
      .ok (emitLoop
        (⟨[("bp1", [⟨"l1", .kStart⟩, ⟨"l2", .kFinish⟩]), ("bp2", [⟨"l5", .kStart⟩])],
          [("bp1", [⟨"l3", .kStart⟩, ⟨"l4", .kStart⟩])]⟩ : BpMaps).bSide
        (⟨[("bp1", [⟨"l1", .kStart⟩, ⟨"l2", .kFinish⟩]), ("bp2", [⟨"l5", .kStart⟩])],
          [("bp1", [⟨"l3", .kStart⟩, ⟨"l4", .kStart⟩])]⟩ : BpMaps).aSide) ∧
    (emitLoop
        (⟨[("bp1", [⟨"l1", .kStart⟩, ⟨"l2", .kFinish⟩]), ("bp2", [⟨"l5", .kStart⟩])],
          [("bp1", [⟨"l3", .kStart⟩, ⟨"l4", .kStart⟩])]⟩ : BpMaps).bSide
        (⟨[("bp1", [⟨"l1", .kStart⟩, ⟨"l2", .kFinish⟩]), ("bp2", [⟨"l5", .kStart⟩])],
          [("bp1", [⟨"l3", .kStart⟩, ⟨"l4", .kStart⟩])]⟩ : BpMaps).aSide).length = 4 :=
  ⟨(C4_cross_product _ _ (by decide)).1, by decide⟩

/-! ### C6: fatal boundary errors -/

theorem processLaneRow_err_bad_boundary (bmap : List (String × List Vector3))
    (st : ParseState) (lid sid : String) (lt dir : Option String) (lb rb : String)
    (hmiss : mapFind bmap lb = none ∨ mapFind bmap rb = none) :
    processLaneRow bmap st ⟨some lid, some sid, lt, dir, some lb, some rb⟩ =
      .error ("Lane " ++ lid ++ " references unknown boundary id") := by
  unfold processLaneRow
  dsimp only
  rcases hmiss with h | h
  · rw [h]
  · rw [h]
    cases mapFind bmap lb <;> rfl

theorem lanesLoop_err_of_mem (bmap : List (String × List Vector3)) (rows : List LaneRow)
    (st : ParseState) (r : LaneRow) (hr : r ∈ rows)
    (herr : ∀ st2 : ParseState, ∃ e, processLaneRow bmap st2 r = .error e) :
    ∃ e, lanesLoop bmap st rows = .error e := by
  induction rows generalizing st with
  | nil => cases hr
  | cons r0 rest ih =>
    rcases List.mem_cons.mp hr with h | h
    · subst h
      obtain ⟨e, he⟩ := herr st
      exact ⟨e, by simp [lanesLoop, he]⟩
    · cases hstep : processLaneRow bmap st r0 with
      | error e => exact ⟨e, by simp [lanesLoop, hstep]⟩
      | ok st2 =>
        obtain ⟨e, he⟩ := ih st2 h
        exact ⟨e, by simp [lanesLoop, hstep, he]⟩

/-- C6: the load fails as a whole whenever the boundary table is
present but contains zero rows, and whenever any lane row (with its
required columns non-null) references a left or right boundary
identifier absent from the boundary mapping.  In both cases
`ParseSegmentsAndLanes` returns `Except.error`, so no graph reaches the
caller. -/
theorem C6_boundary_fatal :
    (∀ (junctions0 : List (String × Junction)) (segs : List SegmentRow)
        (lrs : List LaneRow),
      ParseSegmentsAndLanes junctions0 (some segs) (some []) (some lrs) =
        .error "boundaries table exists but contains no rows") ∧
    (∀ (junctions0 : List (String × Junction)) (segs : List SegmentRow)
        (brows : List BoundaryRow) (lrs : List LaneRow)
        (bmap : List (String × List Vector3)),
      loadBoundaries brows = .ok bmap →
      ∀ (r : LaneRow), r ∈ lrs →
      ∀ (lid sid : String) (lt dir : Option String) (lb rb : String),
      r = ⟨some lid, some sid, lt, dir, some lb, some rb⟩ →
      (mapFind bmap lb = none ∨ mapFind bmap rb = none) →
      ∃ e, ParseSegmentsAndLanes junctions0 (some segs) (some brows) (some lrs) =
        .error e) := by
  constructor
  · intro junctions0 segs lrs
    simp [ParseSegmentsAndLanes, loadBoundaries, loadBoundariesLoop]
  · intro junctions0 segs brows lrs bmap hb r hmem lid sid lt dir lb rb hshape hmiss
    subst hshape
    obtain ⟨e, he⟩ := lanesLoop_err_of_mem bmap lrs
      (segs.foldl processSegmentRow ⟨junctions0, [], [], [], []⟩) _ hmem
      (fun st2 => ⟨_, processLaneRow_err_bad_boundary bmap st2 lid sid lt dir lb rb hmiss⟩)
    refine ⟨e, ?_⟩
    simp only [ParseSegmentsAndLanes, hb, he]

/-- Witness for C6: an empty boundary table aborts, and a lane
referencing a boundary id missing from a one-entry boundary map
aborts. -/
theorem C6_witness :
    ParseSegmentsAndLanes [] (some []) (some []) (some []) =
      .error "boundaries table exists but contains no rows" ∧
    (∃ e, ParseSegmentsAndLanes [("j1", ⟨"j1", []⟩)]
      (some [⟨some "s1", some "j1", none⟩])
      (some [⟨some "b1", some "LINESTRING Z(0 0 0, 1 0 0)"⟩])
      (some [⟨some "l1", some "s1", none, none, some "b1", some "bMISSING"⟩]) =
        .error e) :=
  ⟨C6_boundary_fatal.1 [] [] [],
    C6_boundary_fatal.2 [("j1", ⟨"j1", []⟩)] [⟨some "s1", some "j1", none⟩]
      [⟨some "b1", some "LINESTRING Z(0 0 0, 1 0 0)"⟩]
      [⟨some "l1", some "s1", none, none, some "b1", some "bMISSING"⟩]
      [("b1", [⟨0, 0, 0⟩, ⟨1, 0, 0⟩])] (by decide)
      ⟨some "l1", some "s1", none, none, some "b1", some "bMISSING"⟩ (by simp)
      "l1" "s1" none none "b1" "bMISSING" rfl (Or.inr (by decide))⟩

/-! ### C9: dropped segments, the side table, and silent lane skips -/

/-- C9 counterexample: with no junctions at all, the single segment row
`(s1, j1)` is dropped, yet the side table still records `s1 → j1`, and
the lane of `s1` is skipped with NO warning — the claim predicted an
empty side table and a warning. -/
theorem C9_counterexample :
    ParseSegmentsAndLanes [] (some [⟨some "s1", some "j1", none⟩])
      (some [⟨some "b1", some "LINESTRING Z(0 0 0, 1 0 0)"⟩])
      (some [⟨some "l1", some "s1", none, none, some "b1", some "b1"⟩]) =
      .ok ⟨[], [("s1", "j1")], [], [], []⟩ := by
  decide

theorem processSegmentRow_junction_missing (st : ParseState) (sid jid : String)
    (nm : Option String) (h : mapFind st.junctions jid = none) :
    processSegmentRow st ⟨some sid, some jid, nm⟩ =
      { st with segment_to_junction := mapSet st.segment_to_junction sid jid } := by
  unfold processSegmentRow
  dsimp only
  rw [h]

theorem processLaneRow_silent_skip (bmap : List (String × List Vector3)) (st : ParseState)
    (lid sid jid : String) (lt dir : Option String) (lb rb : String)
    (lpts rpts : List Vector3)
    (hlb : mapFind bmap lb = some lpts) (hrb : mapFind bmap rb = some rpts)
    (hside : mapFind st.segment_to_junction sid = some jid)
    (hjun : mapFind st.junctions jid = none) :
    processLaneRow bmap st ⟨some lid, some sid, lt, dir, some lb, some rb⟩ = .ok st := by
  unfold processLaneRow
  dsimp only
  rw [hlb, hrb]
  dsimp only
  rw [hside]
  dsimp only
  rw [hjun]

theorem processLaneRow_warn (bmap : List (String × List Vector3)) (st : ParseState)
    (lid sid : String) (lt dir : Option String) (lb rb : String)
    (lpts rpts : List Vector3)
    (hlb : mapFind bmap lb = some lpts) (hrb : mapFind bmap rb = some rpts)
    (hside : mapFind st.segment_to_junction sid = none) :
    processLaneRow bmap st ⟨some lid, some sid, lt, dir, some lb, some rb⟩ =
      .ok { st with warnings :=
        st.warnings ++ ["Lane " ++ lid ++ " references unknown segment " ++ sid] } := by
  unfold processLaneRow
  dsimp only
  rw [hlb, hrb]
  dsimp only
  rw [hside]

/-- C9 (amended): a segment row whose junction does not exist is
dropped — no junction changes — but the `segment_to_junction` side
table records the entry unconditionally; a lane row whose segment is in
the side table while the named junction does not exist is skipped
silently (state unchanged: no warning, no failure); the
unknown-segment warning occurs only for a lane whose segment id has no
side-table entry. -/
theorem C9_side_table_and_silent_skip :
    (∀ (st : ParseState) (sid jid : String) (nm : Option String),
      mapFind st.junctions jid = none →
      processSegmentRow st ⟨some sid, some jid, nm⟩ =
        { st with segment_to_junction := mapSet st.segment_to_junction sid jid }) ∧
    (∀ (bmap : List (String × List Vector3)) (st : ParseState)
        (lid sid jid : String) (lt dir : Option String) (lb rb : String)
        (lpts rpts : List Vector3),
      mapFind bmap lb = some lpts → mapFind bmap rb = some rpts →
      mapFind st.segment_to_junction sid = some jid →
      mapFind st.junctions jid = none →
      processLaneRow bmap st ⟨some lid, some sid, lt, dir, some lb, some rb⟩ = .ok st) ∧
    (∀ (bmap : List (String × List Vector3)) (st : ParseState)
        (lid sid : String) (lt dir : Option String) (lb rb : String)
        (lpts rpts : List Vector3),
      mapFind bmap lb = some lpts → mapFind bmap rb = some rpts →
      mapFind st.segment_to_junction sid = none →
      processLaneRow bmap st ⟨some lid, some sid, lt, dir, some lb, some rb⟩ =
        .ok { st with warnings :=
          st.warnings ++ ["Lane " ++ lid ++ " references unknown segment " ++ sid] }) :=
  ⟨processSegmentRow_junction_missing, processLaneRow_silent_skip, processLaneRow_warn⟩

/-- Witness for C9 (amended) at concrete states. -/
theorem C9_witness :
    processSegmentRow ⟨[], [], [], [], []⟩ ⟨some "s1", some "j1", none⟩ =
      ⟨[], [("s1", "j1")], [], [], []⟩ ∧
    processLaneRow [("b1", [⟨0, 0, 0⟩])] ⟨[], [("s1", "j1")], [], [], []⟩
      ⟨some "l1", some "s1", none, none, some "b1", some "b1"⟩ =
      .ok ⟨[], [("s1", "j1")], [], [], []⟩ ∧
    processLaneRow [("b1", [⟨0, 0, 0⟩])] ⟨[], [], [], [], []⟩
      ⟨some "l1", some "s9", none, none, some "b1", some "b1"⟩ =
      .ok ⟨[], [], [], [], ["Lane " ++ "l1" ++ " references unknown segment " ++ "s9"]⟩ :=
  ⟨C9_side_table_and_silent_skip.1 ⟨[], [], [], [], []⟩ "s1" "j1" none (by decide),
    C9_side_table_and_silent_skip.2.1 [("b1", [⟨0, 0, 0⟩])] ⟨[], [("s1", "j1")], [], [], []⟩
      "l1" "s1" "j1" none none "b1" "b1" [⟨0, 0, 0⟩] [⟨0, 0, 0⟩]
      (by decide) (by decide) (by decide) (by decide),
    C9_side_table_and_silent_skip.2.2 [("b1", [⟨0, 0, 0⟩])] ⟨[], [], [], [], []⟩
      "l1" "s9" none none "b1" "b1" [⟨0, 0, 0⟩] [⟨0, 0, 0⟩]
      (by decide) (by decide) (by decide)⟩

/-! ### C1: the chain walk does not terminate on a left-link cycle -/

theorem cyc_walk_never_exits :
    ∀ n, chainFromFuel cycLaneMap n cycLaneA = none ∧
      chainFromFuel cycLaneMap n cycLaneB = none := by
  intro n
  induction n with
  | zero => exact ⟨rfl, rfl⟩
  | succ k ih =>
    have hA : chainStep cycLaneMap cycLaneA = some cycLaneB := by decide
    have hB : chainStep cycLaneMap cycLaneB = some cycLaneA := by decide
    constructor
    · unfold chainFromFuel
      rw [hA]
      dsimp only
      rw [ih.2]
    · unfold chainFromFuel
      rw [hB]
      dsimp only
      rw [ih.1]

/-- C1 is violated by the code: on the reachable adjacency
configuration `(A,B,left)`, `(B,A,left)` (a left-link cycle whose lanes
both lack right links), the reordering step of `BuildLaneAdjacency`
picks lane A as the rightmost lane and then its `while (current)` walk
never reaches an exit condition — `chainFromFuel` returns `none` for
every fuel bound, i.e. the C++ loop does not terminate (and its
`ordered_lanes` vector grows without bound), where the claim promises
termination with the sequence left unchanged. -/
theorem C1_reorder_diverges_on_cycle :
    ([⟨"A", [], [], none, none⟩, ⟨"B", [], [], none, none⟩].map
        (setLaneAdj (buildAdjMaps cycAdjRows).1 (buildAdjMaps cycAdjRows).2) =
      [cycLaneA, cycLaneB]) ∧
    2 ≤ ([cycLaneA, cycLaneB] : List Lane).length ∧
    findRightmost [cycLaneA, cycLaneB] = some cycLaneA ∧
    ∀ fuel, chainFromFuel (buildLaneMap [cycLaneA, cycLaneB]) fuel cycLaneA = none :=
  ⟨by decide, by decide, by decide, fun fuel => (cyc_walk_never_exits fuel).1⟩

/-! ### C2: the handle is leaked when the constructor throws -/

/-- C2 is violated by the code: a database that opens successfully but
lacks the junctions table makes the constructor throw after
`OpenDatabase`; the destructor of the partially constructed object does
not run and nothing else closes the raw `sqlite3*`, so the handle is
not released on that exit path — while the open-failure path and the
success/destruction path do release it. -/
theorem C2_handle_leak_on_ctor_throw :
    (runLoad 1 ⟨true, none, none, none, none, none, none, none⟩).outcome =
      .error "Failed to query junctions table" ∧
    (runLoad 1 ⟨true, none, none, none, none, none, none, none⟩).handleReleased = false ∧
    (runLoad 1 ⟨false, none, none, none, none, none, none, none⟩).handleReleased = true ∧
    (runLoad 1 ⟨true, none, some [], some [],
      some [⟨some "b1", some "LINESTRING Z(0 0 0, 1 0 0)"⟩], some [], none,
      none⟩).handleReleased = true ∧
    (runLoad 1 ⟨true, none, some [], some [],
      some [⟨some "b1", some "LINESTRING Z(0 0 0, 1 0 0)"⟩], some [], none,
      none⟩).outcome = .ok ⟨[], []⟩ :=
  ⟨by decide, by decide, by decide, by decide, by decide⟩

/-! ### C3: the direction of the reordered chain -/

/-- C3 counterexample: the claim's own scenario — adjacency
`lane1.right = lane2`, `lane2.left = lane1` — reorders to
`[lane2, lane1]` (a successful reorder covering both lanes), but the
second lane's left-neighbor identifier is `none`, not the first lane's
identifier: the claimed invariant `L(k+1).left == L(k).id` fails at
k = 0.  (The actual invariant runs the other way.) -/
theorem C3_counterexample :
    reorderLanesFuel 10
      ([⟨"lane1", [], [], none, none⟩, ⟨"lane2", [], [], none, none⟩].map
        (setLaneAdj
          (buildAdjMaps [⟨some "lane1", some "lane2", some "right"⟩,
            ⟨some "lane2", some "lane1", some "left"⟩]).1
          (buildAdjMaps [⟨some "lane1", some "lane2", some "right"⟩,
            ⟨some "lane2", some "lane1", some "left"⟩]).2)) =
      [⟨"lane2", [], [], some "lane1", none⟩, ⟨"lane1", [], [], none, some "lane2"⟩] ∧
    ¬ ((⟨"lane1", [], [], none, some "lane2"⟩ : Lane).left_lane_id =
      some (⟨"lane2", [], [], some "lane1", none⟩ : Lane).id) := by
  decide

theorem foldl_mapSet_id_inv (lanes : List Lane) (m : List (String × Lane))
    (hm : ∀ lid l, mapFind m lid = some l → l.id = lid) :
    ∀ lid l, mapFind (lanes.foldl (fun acc ln => mapSet acc ln.id ln) m) lid = some l →
      l.id = lid := by
  induction lanes generalizing m with
  | nil => exact hm
  | cons l0 rest ih =>
    refine ih (mapSet m l0.id l0) ?_
    intro lid l hf
    by_cases he : lid = l0.id
    · subst he
      rw [mapFind_mapSet_self] at hf
      cases hf
      rfl
    · rw [mapFind_mapSet_ne m l0.id lid l0 he] at hf
      exact hm lid l hf

theorem buildLaneMap_id (lanes : List Lane) :
    ∀ lid l, mapFind (buildLaneMap lanes) lid = some l → l.id = lid := by
  refine foldl_mapSet_id_inv lanes [] ?_
  intro lid l h
  simp [mapFind] at h

theorem chainFromFuel_head_eq (m : List (String × Lane)) (fuel : Nat) (cur : Lane)
    (res : List Lane) (h : chainFromFuel m fuel cur = some res) :
    ∃ rest, res = cur :: rest := by
  cases fuel with
  | zero => cases h
  | succ k =>
    unfold chainFromFuel at h
    cases hstep : chainStep m cur with
    | none =>
      rw [hstep] at h
      cases h
      exact ⟨[], rfl⟩
    | some nxt =>
      rw [hstep] at h
      dsimp only at h
      cases hin : chainFromFuel m k nxt with
      | none =>
        rw [hin] at h
        cases h
      | some rest2 =>
        rw [hin] at h
        cases h
        exact ⟨rest2, rfl⟩

theorem chainFromFuel_chain (m : List (String × Lane))
    (hm : ∀ lid l, mapFind m lid = some l → l.id = lid) (fuel : Nat) :
    ∀ (cur : Lane) (res : List Lane), chainFromFuel m fuel cur = some res →
      List.Chain' (fun a b => a.left_lane_id = some b.id) res := by
  induction fuel with
  | zero =>
    intro cur res h
    cases h
  | succ k ih =>
    intro cur res h
    unfold chainFromFuel at h
    cases hstep : chainStep m cur with
    | none =>
      rw [hstep] at h
      cases h
      simp
    | some nxt =>
      rw [hstep] at h
      dsimp only at h
      cases hin : chainFromFuel m k nxt with
      | none =>
        rw [hin] at h
        cases h
      | some rest2 =>
        rw [hin] at h
        cases h
        obtain ⟨rest3, hr3⟩ := chainFromFuel_head_eq m k nxt rest2 hin
        subst hr3
        have hcur : cur.left_lane_id = some nxt.id := by
          unfold chainStep at hstep
          cases hl : cur.left_lane_id with
          | none =>
            rw [hl] at hstep
            cases hstep
          | some lid =>
            rw [hl] at hstep
            dsimp only at hstep
            rw [hm lid nxt hstep]
        rw [List.chain'_cons]
        exact ⟨hcur, ih nxt (nxt :: rest3) hin⟩

theorem reorderLanesFuel_success (fuel : Nat) (lanes : List Lane) (start : Lane)
    (ordered : List Lane) (h2 : 2 ≤ lanes.length) (hfr : findRightmost lanes = some start)
    (hchain : chainFromFuel (buildLaneMap lanes) fuel start = some ordered)
    (hlen : ordered.length = lanes.length) :
    reorderLanesFuel fuel lanes = ordered := by
  unfold reorderLanesFuel
  rw [if_neg (by omega)]
  dsimp only
  rw [hfr]
  dsimp only
  rw [hchain]
  dsimp only
  rw [if_pos hlen]

theorem reorderLanesFuel_no_rightmost (fuel : Nat) (lanes : List Lane)
    (hfr : findRightmost lanes = none) : reorderLanesFuel fuel lanes = lanes := by
  unfold reorderLanesFuel
  by_cases h1 : lanes.length ≤ 1
  · rw [if_pos h1]
  · rw [if_neg h1]
    dsimp only
    rw [hfr]

theorem reorderLanesFuel_bad_length (fuel : Nat) (lanes : List Lane) (start : Lane)
    (ordered : List Lane) (hfr : findRightmost lanes = some start)
    (hchain : chainFromFuel (buildLaneMap lanes) fuel start = some ordered)
    (hlen : ordered.length ≠ lanes.length) : reorderLanesFuel fuel lanes = lanes := by
  unfold reorderLanesFuel
  by_cases h1 : lanes.length ≤ 1
  · rw [if_pos h1]
  · rw [if_neg h1]
    dsimp only
    rw [hfr]
    dsimp only
    rw [hchain]
    dsimp only
    rw [if_neg hlen]

/-- C3 (amended): after a successful reordering of a segment's lanes,
every adjacent pair `(Lk, Lk+1)` of the result satisfies
`Lk.left_neighbor = Lk+1.id` — the sequence runs right-to-left, each
subsequent lane being the previous one's LEFT neighbour (not the
claimed `Lk+1.left_neighbor = Lk.id`); when the rightmost lane cannot
be found or the walk does not cover every lane, the original sequence
is retained; the two-lane scenario reorders to `[lane2, lane1]` with
`lane2` having no right neighbour. -/
theorem C3_right_to_left_chain :
    (∀ (fuel : Nat) (lanes : List Lane) (start : Lane) (ordered : List Lane),
      2 ≤ lanes.length → findRightmost lanes = some start →
      chainFromFuel (buildLaneMap lanes) fuel start = some ordered →
      ordered.length = lanes.length →
      reorderLanesFuel fuel lanes = ordered ∧
      List.Chain' (fun a b => a.left_lane_id = some b.id) ordered) ∧
    (∀ (fuel : Nat) (lanes : List Lane), findRightmost lanes = none →
      reorderLanesFuel fuel lanes = lanes) ∧
    (∀ (fuel : Nat) (lanes : List Lane) (start : Lane) (ordered : List Lane),
      findRightmost lanes = some start →
      chainFromFuel (buildLaneMap lanes) fuel start = some ordered →
      ordered.length ≠ lanes.length →
      reorderLanesFuel fuel lanes = lanes) ∧
    (reorderLanesFuel 10
        [⟨"lane1", [], [], none, some "lane2"⟩, ⟨"lane2", [], [], some "lane1", none⟩] =
      [⟨"lane2", [], [], some "lane1", none⟩, ⟨"lane1", [], [], none, some "lane2"⟩] ∧
      (⟨"lane2", [], [], some "lane1", none⟩ : Lane).right_lane_id = none) := by
  refine ⟨?_, reorderLanesFuel_no_rightmost, reorderLanesFuel_bad_length, by decide, by decide⟩
  intro fuel lanes start ordered h2 hfr hchain hlen
  exact ⟨reorderLanesFuel_success fuel lanes start ordered h2 hfr hchain hlen,
    chainFromFuel_chain (buildLaneMap lanes) (buildLaneMap_id lanes) fuel start ordered hchain⟩

/-- Witness for C3 (amended) at the concrete two-lane scenario. -/
theorem C3_witness :
    reorderLanesFuel 10
        [⟨"lane1", [], [], none, some "lane2"⟩, ⟨"lane2", [], [], some "lane1", none⟩] =
      [⟨"lane2", [], [], some "lane1", none⟩, ⟨"lane1", [], [], none, some "lane2"⟩] ∧
    List.Chain' (fun (a b : Lane) => a.left_lane_id = some b.id)
      [⟨"lane2", [], [], some "lane1", none⟩, ⟨"lane1", [], [], none, some "lane2"⟩] :=
  C3_right_to_left_chain.1 10
    [⟨"lane1", [], [], none, some "lane2"⟩, ⟨"lane2", [], [], some "lane1", none⟩]
    ⟨"lane2", [], [], some "lane1", none⟩
    [⟨"lane2", [], [], some "lane1", none⟩, ⟨"lane1", [], [], none, some "lane2"⟩]
    (by decide) (by decide) (by decide) (by decide)

end MaliputGpkg

